import Mathlib

/-!
Verification of the SwarmChemistry relay server (`src/unnamed/part_000`, the
most complete of the three server copies, which the other two are subsets of).

The JavaScript source is shallowly embedded:
* strings are `List Char`; JavaScript string helpers (`trim`, `split`,
  `toFixed`, `parseFloat`, the regex used by `parseStandardFormat`) are
  modelled as executable Lean functions on `List Char`;
* JavaScript numbers are modelled as exact rationals (`Rat`), with `NaN`
  represented explicitly by `JsNum.nan`; binary floating point rounding
  error, `parseFloat`'s exponent / `Infinity` forms and `parseInt`'s hex
  prefixes are outside the inputs exercised here and are not modelled;
* `Math.random()` draws are made explicit: the parser takes a stream of
  rational triples in `[0, 1)` (one triple per generated colour), and the
  synthesized session id / timestamps are explicit parameters;
* whitespace is the ASCII whitespace of `Char.isWhitespace`
  (space, tab, CR, LF), which covers every input considered here.

Each HTTP handler body becomes a pure function from its inputs and the
current store to its response and the new store.
-/

namespace Swarm

/-! ## Characters and digit strings -/

/-- Decimal digit character for a value `0 ≤ d ≤ 9` (used by number rendering). -/
def digitChar (d : Nat) : Char :=
  match d with
  | 0 => '0' | 1 => '1' | 2 => '2' | 3 => '3' | 4 => '4'
  | 5 => '5' | 6 => '6' | 7 => '7' | 8 => '8' | _ => '9'

/-- Numeric value of a digit character (JS `charCodeAt` arithmetic). -/
def charToDigit (c : Char) : Nat := c.toNat - 48

/-- Decimal rendering of a natural number, most significant digit first
(the digits of JS number-to-string on a non-negative integer). -/
def natToChars (n : Nat) : List Char :=
  if _h : n < 10 then [digitChar n]
  else natToChars (n / 10) ++ [digitChar (n % 10)]
  decreasing_by exact Nat.div_lt_self (by omega) (by omega)

/-- Value of a digit string (how JS `parseInt` reads an all-digit string). -/
def digitsToNat (l : List Char) : Nat :=
  l.foldl (fun a c => 10 * a + charToDigit c) 0

/-- Decimal rendering of an integer (JS number-to-string on an integer). -/
def intToChars (k : Int) : List Char :=
  if k < 0 then '-' :: natToChars (-k).toNat else natToChars k.toNat

/-- Split a character list at every occurrence of `c`
(JS `String.prototype.split` with a single-character separator:
always returns at least one piece, and `"".split` gives `[""]`). -/
def splitOnChar (c : Char) : List Char → List (List Char)
  | [] => [[]]
  | x :: xs =>
    if x = c then [] :: splitOnChar c xs
    else
      match splitOnChar c xs with
      | [] => [[x]]
      | t :: ts => (x :: t) :: ts

/-- Join pieces with a single separator character (JS `Array.prototype.join`). -/
def intercalateChars (c : Char) : List (List Char) → List Char
  | [] => []
  | [x] => x
  | x :: y :: t => x ++ c :: intercalateChars c (y :: t)

/-- Drop leading whitespace (the left half of JS `String.prototype.trim`). -/
def trimL (l : List Char) : List Char := l.dropWhile Char.isWhitespace

/-- Drop trailing whitespace (the right half of JS `String.prototype.trim`). -/
def trimR (l : List Char) : List Char := (trimL l.reverse).reverse

/-- JS `String.prototype.trim`. -/
def trimBoth (l : List Char) : List Char := trimR (trimL l)

/-! ## JavaScript numbers -/

/-- A JavaScript number as used by this program: either `NaN` or an exact
rational value. -/
inductive JsNum where
  | nan : JsNum
  | val (q : Rat) : JsNum
deriving DecidableEq

/-- The unsigned part of JS `parseFloat`: an integer digit run, an optional
`.` plus fractional digit run, ignoring trailing garbage; `none` when no
digit is found at all. -/
def jsParseMag (l1 : List Char) : Option Rat :=
  let d1 := l1.takeWhile Char.isDigit
  let l2 := l1.dropWhile Char.isDigit
  if l2.head? = some '.' then
    let d2 := l2.tail.takeWhile Char.isDigit
    if d1 = [] ∧ d2 = [] then none
    else some ((digitsToNat d1 : Rat) + (digitsToNat d2 : Rat) / (10 : Rat) ^ d2.length)
  else if d1 = [] then none
  else some (digitsToNat d1 : Rat)

/-- JS `parseFloat` on an already-trimmed token: optional sign, then the
unsigned magnitude; `NaN` when no digit is found.  (Exponent notation and
`Infinity` are not modelled; no input in this development uses them.) -/
def jsParseFloat (l : List Char) : JsNum :=
  let sgn : Rat := if l.head? = some '-' then -1 else 1
  let l1 : List Char :=
    if l.head? = some '-' ∨ l.head? = some '+' then l.tail else l
  match jsParseMag l1 with
  | none => JsNum.nan
  | some m => JsNum.val (sgn * m)

/-- JS `Math.round`: round half toward positive infinity. -/
def jsRound (q : Rat) : Int := ⌊q + 1 / 2⌋

/-- JS `Number.prototype.toFixed(2)` on a non-negative rational:
round to hundredths, then render `<int>.<2 digits>`.  For the values this
program serializes (already exact hundredths) no rounding occurs, so the
tie-breaking choice is irrelevant. -/
def fixed2nn (q : Rat) : List Char :=
  let k : Nat := (⌊q * 100 + 1 / 2⌋).toNat
  natToChars (k / 100) ++ '.' :: [digitChar (k % 100 / 10), digitChar (k % 100 % 10)]

/-- JS `Number.prototype.toFixed(2)` on a rational. -/
def fixed2 (q : Rat) : List Char :=
  if q < 0 then '-' :: fixed2nn (-q) else fixed2nn q

/-- JS `toFixed(2)` on a JS number (`NaN.toFixed(2)` is `"NaN"`). -/
def toFixed2 (x : JsNum) : List Char :=
  match x with
  | JsNum.nan => ['N', 'a', 'N']
  | JsNum.val q => fixed2 q

/-! ## Data model

The shapes stored in `swarmDataStore`.  A structured (JSON) submission is
taken at the granularity the claims probe: its `populations` field may be
absent (`none`), and its `totalIndividuals` is whatever the submitter sent
(the handler never validates it).  Deeper malformations of individual
population entries are not modelled. -/

/-- The per-population parameter object (`pop.parameters` in the source). -/
structure PopulationParameters where
  neighborhoodRadius : JsNum
  normalSpeed : JsNum
  maxSpeed : JsNum
  c1 : JsNum
  c2 : JsNum
  c3 : JsNum
  c4 : JsNum
  c5 : JsNum
  color : List Char
deriving DecidableEq

/-- One population entry: a count and its parameters. -/
structure Population where
  count : Int
  parameters : PopulationParameters
deriving DecidableEq

/-- A swarm record as it lives in `swarmDataStore`: the submitted fields plus
the two fields the POST handler stamps on (`serverTimestamp`, `id`,
`none` until stamped). -/
structure SwarmRecord where
  sessionId : List Char
  timestamp : Option (List Char)
  populations : Option (List Population)
  totalIndividuals : Int
  userAgent : Option (List Char)
  format : Option (List Char)
  serverTimestamp : Option (List Char)
  id : Option (List Char)
deriving DecidableEq

/-- Sum of the `count` fields of a population list. -/
def sumCounts (ps : List Population) : Int := (ps.map (·.count)).sum

/-- The list `[params[0], …, params[7]]` in the field order the source uses
everywhere (`neighborhoodRadius, normalSpeed, maxSpeed, c1..c5`). -/
def paramFields (p : PopulationParameters) : List JsNum :=
  [p.neighborhoodRadius, p.normalSpeed, p.maxSpeed, p.c1, p.c2, p.c3, p.c4, p.c5]

/-- Build the `parameters` object from the parsed token array `params`
(source: `neighborhoodRadius: params[0], …, c5: params[7]`, always called
with `params.length === 8`). -/
def mkParams (params : List JsNum) (color : List Char) : PopulationParameters :=
  { neighborhoodRadius := params.getD 0 JsNum.nan
    normalSpeed := params.getD 1 JsNum.nan
    maxSpeed := params.getD 2 JsNum.nan
    c1 := params.getD 3 JsNum.nan
    c2 := params.getD 4 JsNum.nan
    c3 := params.getD 5 JsNum.nan
    c4 := params.getD 6 JsNum.nan
    c5 := params.getD 7 JsNum.nan
    color := color }

/-! ## Random colour generation -/

/-- The literal string `hsl(<h>, <s>%, <l>%)`. -/
def hslString (h s l : Int) : List Char :=
  ('h' :: 's' :: 'l' :: '(' :: intToChars h) ++ (',' :: ' ' :: intToChars s) ++
    ('%' :: ',' :: ' ' :: intToChars l) ++ ['%', ')']

/-- Source `generateRandomColor`, with the three `Math.random()` draws made
explicit: `hue = floor(r1*360)`, `saturation = floor(r2*40)+60`,
`lightness = floor(r3*30)+50`, rendered as `hsl(h, s%, l%)`. -/
def generateRandomColor (r1 r2 r3 : Rat) : List Char :=
  hslString ⌊r1 * 360⌋ (⌊r2 * 40⌋ + 60) (⌊r3 * 30⌋ + 50)

/-- `generateRandomColor` applied to one triple of random draws. -/
def generateRandomColor3 (t : Rat × Rat × Rat) : List Char :=
  generateRandomColor t.1 t.2.1 t.2.2

/-- A valid stream of `Math.random()` triples: every component in `[0, 1)`. -/
def validGen (gen : Nat → Rat × Rat × Rat) : Prop :=
  ∀ i, 0 ≤ (gen i).1 ∧ (gen i).1 < 1 ∧ 0 ≤ (gen i).2.1 ∧ (gen i).2.1 < 1 ∧
    0 ≤ (gen i).2.2 ∧ (gen i).2.2 < 1

/-! ## The text-format parser (`parseStandardFormat`) -/

/-- Bool test `c ≠ ')'` (the character class `[^)]` of the source regex). -/
def notRp (c : Char) : Bool := c != ')'

/-- Try to match the source regex `(\d+)\s*\*\s*\(([^)]+)\)` starting exactly
at the head of `l`; on success return the digit group and the parenthesized
group.  Greedy maximal-munch is equivalent to the backtracking semantics for
this pattern: shortening `\d+` exposes a digit where `\s*\*` must match, and
`[^)]+` cannot cross the `)` that must follow it. -/
def tryMatchAt (l : List Char) : Option (List Char × List Char) :=
  let d := l.takeWhile Char.isDigit
  let r1 := (l.dropWhile Char.isDigit).dropWhile Char.isWhitespace
  if d = [] then none
  else if r1.head? = some '*' then
    let r2 := r1.tail.dropWhile Char.isWhitespace
    if r2.head? = some '(' then
      let r3 := r2.tail
      let inner := r3.takeWhile notRp
      if inner = [] then none
      else if (r3.dropWhile notRp).head? = some ')' then some (d, inner)
      else none
    else none
  else none

/-- Leftmost match of the (unanchored) source regex: JS `String.prototype.match`
tries each start position from the left. -/
def findMatch : List Char → Option (List Char × List Char)
  | [] => none
  | c :: rest =>
    match tryMatchAt (c :: rest) with
    | some m => some m
    | none => findMatch rest

/-- One iteration of the source's `lines.forEach` body: match the regex,
split the parenthesized group on commas, trim and `parseFloat` each piece,
and keep the line only when there are exactly 8 pieces.  Returns the parsed
count and the 8 parsed values. -/
def parseLine (l : List Char) : Option (Nat × List JsNum) :=
  match findMatch l with
  | none => none
  | some (d, inner) =>
    let params := (splitOnChar ',' inner).map (fun p => jsParseFloat (trimBoth p))
    if params.length = 8 then some (digitsToNat d, params) else none

/-- Source `textData.trim().split('\n').filter(line => line.trim())`. -/
def linesOf (t : List Char) : List (List Char) :=
  (splitOnChar '\n' (trimBoth t)).filter (fun l => trimBoth l ≠ [])

/-- The source's `forEach` accumulation over the lines, written as a
recursion: accepted lines append a population (in line order) and add their
count to the running total; `idx` counts the `generateRandomColor()` calls
made so far, indexing into the random stream. -/
def parseLoop (gen : Nat → Rat × Rat × Rat) (idx : Nat) :
    List (List Char) → List Population × Int
  | [] => ([], 0)
  | line :: rest =>
    match parseLine line with
    | some cp =>
      let p : Population :=
        { count := (cp.1 : Int), parameters := mkParams cp.2 (generateRandomColor3 (gen idx)) }
      let r := parseLoop gen (idx + 1) rest
      (p :: r.1, (cp.1 : Int) + r.2)
    | none => parseLoop gen idx rest

/-- Source `parseStandardFormat(textData)`.  `gen` is the stream of
`Math.random()` triples consumed by `generateRandomColor`, and `sid`/`ts`
stand for the synthesized `sessionId` and `new Date().toISOString()`. -/
def parseStandardFormat (gen : Nat → Rat × Rat × Rat) (sid ts : List Char)
    (textData : List Char) : SwarmRecord :=
  let r := parseLoop gen 0 (linesOf textData)
  { sessionId := sid
    timestamp := some ts
    populations := some r.1
    totalIndividuals := r.2
    userAgent := some ('S' :: 't' :: 'a' :: 'n' :: 'd' :: 'a' :: 'r' :: 'd' :: ' ' ::
      'F' :: 'o' :: 'r' :: 'm' :: 'a' :: 't' :: ' ' :: 'P' :: 'a' :: 'r' :: 's' :: 'e' :: ['r'])
    format := some ['s', 't', 'a', 'n', 'd', 'a', 'r', 'd']
    serverTimestamp := none
    id := none }

/-! ## The serializer (`convertToStandardFormat`) -/

/-- Join pieces with a multi-character separator (JS `join(', ')`). -/
def intercalateSep (sep : List Char) : List (List Char) → List Char
  | [] => []
  | [x] => x
  | x :: y :: t => x ++ sep ++ intercalateSep sep (y :: t)

/-- One serialized line: source template
`` `${pop.count} * (${params.neighborhoodRadius.toFixed(2)}, …)` ``,
the eight `toFixed(2)` values joined by `', '`. -/
def popLine (p : Population) : List Char :=
  intToChars p.count ++ (' ' :: '*' :: ' ' ::
    '(' :: intercalateSep [',', ' '] ((paramFields p.parameters).map toFixed2)) ++ [')']

/-- Source `convertToStandardFormat(data)`: `''` when `data.populations` is
absent (an empty population array also joins to `''`), otherwise one
`popLine` per population joined by `'\n'`. -/
def convertToStandardFormat (data : SwarmRecord) : List Char :=
  match data.populations with
  | none => []
  | some ps => intercalateChars '\n' (ps.map popLine)

/-! ## The retention store and the HTTP handlers -/

/-- Source `MAX_STORED_DATA = 50`. -/
def MAX_STORED_DATA : Nat := 50

/-- Source insertion (POST handler lines 246–251): `unshift` the new record,
then if the length exceeds the capacity keep only the first `cap` entries. -/
def insertCap (cap : Nat) (r : α) (s : List α) : List α :=
  let s1 := r :: s
  if s1.length > cap then s1.take cap else s1

/-- Fold a record sequence into an empty store through `insertCap`
(a sequence of successful ingest insertions, oldest first). -/
def ingestSeq (cap : Nat) (recs : List α) : List α :=
  recs.foldl (fun s r => insertCap cap r s) []

/-- The two stamps the POST handler adds: `new Date().toISOString()` and
`Date.now() + '_' + Math.random()…`. -/
structure Stamp where
  serverTimestamp : List Char
  id : List Char
deriving DecidableEq

/-- Stamping (source lines 242–243): set `serverTimestamp` and `id` on the
record about to be stored. -/
def stampRecord (st : Stamp) (r : SwarmRecord) : SwarmRecord :=
  { r with serverTimestamp := some st.serverTimestamp, id := some st.id }

/-- A POST request body: raw text (`typeof req.body === 'string'`) or a
structured JSON payload. -/
inductive ReqBody where
  | text (t : List Char)
  | json (j : SwarmRecord)

/-- Response of the POST handler: the success JSON (with `dataId`,
`timestamp`, `format`) or the catch-block's 500 `{success:false}` response. -/
inductive PostResp where
  | ok (dataId timestamp fmt : List Char)
  | err
deriving DecidableEq

/-- The `success` flag of a POST response. -/
def PostResp.success : PostResp → Bool
  | .ok _ _ _ => true
  | .err => false

/-- Everything one POST call consumes besides the store: the random stream and
synthesized ids for a text body, and the stamps. -/
structure IngestCtx where
  gen : Nat → Rat × Rat × Rat
  sid : List Char
  ts : List Char
  stamp : Stamp
  body : ReqBody

/-- Source POST `/api/swarm-data` handler (lines 228–280).  The body is
parsed (text) or taken as-is (JSON), stamped, and inserted; only *after*
insertion does the logging line `swarmData.populations.length` run, which
throws a `TypeError` when `populations` is absent, landing in the catch
block that answers 500 `{success:false}` — with the record already stored. -/
def postSwarmData (c : IngestCtx) (store : List SwarmRecord) :
    PostResp × List SwarmRecord :=
  let swarmData : SwarmRecord :=
    match c.body with
    | .text t => parseStandardFormat c.gen c.sid c.ts t
    | .json j => j
  let stamped := stampRecord c.stamp swarmData
  let store1 := insertCap MAX_STORED_DATA stamped store
  match stamped.populations with
  | none => (PostResp.err, store1)
  | some _ =>
    (PostResp.ok c.stamp.id c.stamp.serverTimestamp
      (match c.body with
       | .text _ => ['s', 't', 'a', 'n', 'd', 'a', 'r', 'd']
       | .json _ => ['j', 's', 'o', 'n']), store1)

/-- The record a POST call stores, before stamping: the text parse or the
JSON body as-is. -/
def ingestRecord (c : IngestCtx) : SwarmRecord :=
  match c.body with
  | ReqBody.text t => parseStandardFormat c.gen c.sid c.ts t
  | ReqBody.json j => j

/-- A sequence of POST calls, oldest first. -/
def runIngests (cs : List IngestCtx) (store : List SwarmRecord) : List SwarmRecord :=
  cs.foldl (fun s c => (postSwarmData c s).2) store

/-- One population of the Unity-friendly projection built by the
`latest` handler (parameter names mapped to domain labels). -/
structure UnityPop where
  count : Int
  neighborhoodRadius : JsNum
  normalSpeed : JsNum
  maxSpeed : JsNum
  cohesion : JsNum
  alignment : JsNum
  separation : JsNum
  randomness : JsNum
  speedControl : JsNum
  color : List Char
deriving DecidableEq

/-- Source projection of one population (latest handler, lines 301–312). -/
def unityPop (p : Population) : UnityPop :=
  { count := p.count
    neighborhoodRadius := p.parameters.neighborhoodRadius
    normalSpeed := p.parameters.normalSpeed
    maxSpeed := p.parameters.maxSpeed
    cohesion := p.parameters.c1
    alignment := p.parameters.c2
    separation := p.parameters.c3
    randomness := p.parameters.c4
    speedControl := p.parameters.c5
    color := p.parameters.color }

/-- The Unity-friendly body of a successful `latest` response. -/
structure UnityData where
  timestamp : Option (List Char)
  sessionId : List Char
  totalParticles : Int
  populations : List UnityPop
deriving DecidableEq

/-- Response of GET `/api/swarm-data/latest`: the empty-store
`{success:false, data:null}` answer, a success projection, or the
catch-block's 500 response (reached when the front record has no
`populations` field, since `latestData.populations.map` then throws). -/
inductive LatestResp where
  | noData
  | ok (u : UnityData)
  | serverError
deriving DecidableEq

/-- Source GET `/api/swarm-data/latest` handler (lines 283–325). -/
def latestHandler (store : List SwarmRecord) : LatestResp :=
  match store with
  | [] => LatestResp.noData
  | latestData :: _ =>
    match latestData.populations with
    | none => LatestResp.serverError
    | some ps =>
      LatestResp.ok
        { timestamp := latestData.serverTimestamp
          sessionId := latestData.sessionId
          totalParticles := latestData.totalIndividuals
          populations := ps.map unityPop }

/-- JS `Array.prototype.slice(0, e)` with a possibly negative end index:
a negative `e` counts from the end of the array (clamped at 0). -/
def jsSliceTo (e : Int) (l : List α) : List α :=
  if e < 0 then l.take ((l.length : Int) + e).toNat else l.take e.toNat

/-- Source GET `/api/swarm-data/history` handler (lines 364–374).
`limitQ` is the result of `parseInt(req.query.limit)` — `none` when that is
`NaN` (parameter omitted or non-numeric).  `parseInt(...) || 10` turns `NaN`
and `0` into the default 10; any other integer (negative included) passes
through to `slice(0, Math.min(limit, length))`.  Returns the page, its
length (`count`) and the store size (`total`). -/
def historyHandler (limitQ : Option Int) (store : List SwarmRecord) :
    List SwarmRecord × Nat × Nat :=
  let limit : Int :=
    match limitQ with
    | none => 10
    | some v => if v = 0 then 10 else v
  let history := jsSliceTo (min limit (store.length : Int)) store
  (history, history.length, store.length)

/-- The `dataStats` object of GET `/api/stats`. -/
structure DataStats where
  totalSubmissions : Nat
  latestSubmission : Option (List Char)
  uniqueSessions : Nat
  totalParticles : Int
  averageParticles : Int
deriving DecidableEq

/-- Source GET `/api/stats` handler (lines 377–396): size, front record's
server timestamp, number of distinct session ids (`new Set(...).size`), sum
of `totalIndividuals`, and the guarded rounded average. -/
def statsHandler (store : List SwarmRecord) : DataStats :=
  { totalSubmissions := store.length
    latestSubmission :=
      match store with
      | [] => none
      | r :: _ => r.serverTimestamp
    uniqueSessions := (store.map (·.sessionId)).dedup.length
    totalParticles := (store.map (·.totalIndividuals)).sum
    averageParticles :=
      if store.length > 0 then
        jsRound (((store.map (·.totalIndividuals)).sum : Rat) / (store.length : Rat))
      else 0 }

/-! ## Spec-side definitions (for refinement comparisons)

`specLineParse` is modelled from the spec's words, not from the source: it is
the anchored grammar `^\s*(\d+)\s*\*\s*\(([^)]+)\)\s*$` of spec §6, used only
to compare the spec's claimed per-line grammar with the source's unanchored
regex. -/

/-- Modelled from the spec: the anchored per-line DSL grammar
`^\s*(\d+)\s*\*\s*\(([^)]+)\)\s*$` (spec §6, "bit-exact").  Returns the two
capture groups on success.  Deterministic maximal munch is equivalent to the
regex's backtracking semantics for this pattern. -/
def specLineParse (l : List Char) : Option (List Char × List Char) :=
  let l1 := l.dropWhile Char.isWhitespace
  let d := l1.takeWhile Char.isDigit
  let r1 := (l1.dropWhile Char.isDigit).dropWhile Char.isWhitespace
  if d = [] then none
  else if r1.head? = some '*' then
    let r2 := r1.tail.dropWhile Char.isWhitespace
    if r2.head? = some '(' then
      let r3 := r2.tail
      let inner := r3.takeWhile notRp
      if inner = [] then none
      else if (r3.dropWhile notRp).head? = some ')' then
        if (r3.dropWhile notRp).tail.dropWhile Char.isWhitespace = [] then
          some (d, inner)
        else none
      else none
    else none
  else none

/-- A token is numeric when `parseFloat` of its trim is not `NaN`. -/
def numericTok (tok : List Char) : Bool :=
  match jsParseFloat (trimBoth tok) with
  | JsNum.nan => false
  | JsNum.val _ => true

/-- Modelled from the spec: a line conforms to the claimed grammar when it
matches the anchored pattern and its parenthesized group splits on commas
into exactly 8 numeric tokens (claim C4's notion of a conforming line). -/
def specConformingLine (l : List Char) : Bool :=
  match specLineParse l with
  | none => false
  | some di =>
    (splitOnChar ',' di.2).length = 8 && (splitOnChar ',' di.2).all numericTok

/-- A numeric token whose value is an exact multiple of `1/100`
("already rounded to two decimals"). -/
def twoDecTok (tok : List Char) : Bool :=
  match jsParseFloat (trimBoth tok) with
  | JsNum.nan => false
  | JsNum.val q => (q * 100).den = 1

/-- A well-formed two-decimal DSL line (the hypothesis of the round-trip
claim C5): anchored grammar plus exactly 8 tokens, each numeric with a value
that is an exact multiple of `1/100`. -/
def wfLine2dp (l : List Char) : Bool :=
  match specLineParse l with
  | none => false
  | some di =>
    (splitOnChar ',' di.2).length = 8 && (splitOnChar ',' di.2).all twoDecTok

/-! ## Auxiliary definitions used by the statements and proofs -/

/-- The format-independent content of a population: its count and its eight
parameter values in field order (colour excluded — it is freshly random). -/
def popData (p : Population) : Int × List JsNum := (p.count, paramFields p.parameters)

/-- The canonical decomposition of a line that matches the DSL grammar:
optional whitespace, digits, whitespace, `*`, whitespace, `(`, the inner
group, `)`, and a trailing segment (written right-nested for proofs). -/
def lineShape (ws0 d ws1 ws2 inner ws3 : List Char) : List Char :=
  ws0 ++ (d ++ (ws1 ++ ('*' :: (ws2 ++ ('(' :: (inner ++ (')' :: ws3)))))))

/-- The stored-record invariant claimed by the spec: when a record has a
`populations` field, its `totalIndividuals` equals the sum of the counts. -/
def invariantOK (r : SwarmRecord) : Prop :=
  match r.populations with
  | none => True
  | some ps => r.totalIndividuals = sumCounts ps

instance (r : SwarmRecord) : Decidable (invariantOK r) := by
  unfold invariantOK; exact match r.populations with
  | none => inferInstanceAs (Decidable True)
  | some _ => inferInstanceAs (Decidable (_ = _))

/-- An ingest context whose structured payload, if any, already satisfies the
stored-record invariant (text bodies impose no condition). -/
def bodyOK (c : IngestCtx) : Prop :=
  match c.body with
  | ReqBody.text _ => True
  | ReqBody.json j => invariantOK j

instance (c : IngestCtx) : Decidable (bodyOK c) := by
  unfold bodyOK; exact match c.body with
  | ReqBody.text _ => inferInstanceAs (Decidable True)
  | ReqBody.json _ => inferInstanceAs (Decidable (invariantOK _))

/-- Trim the right edge of the last element of a list of lines. -/
def trimLastR : List (List Char) → List (List Char)
  | [] => []
  | [x] => [trimR x]
  | x :: y :: t => x :: trimLastR (y :: t)

/-- Trim the left edge of the first line and the right edge of the last line
(what `text.trim()` does to the first/last line of a multi-line text). -/
def edgeTrim : List (List Char) → List (List Char)
  | [] => []
  | x :: xs => trimLastR (trimL x :: xs)

/-! ## Concrete fixtures for witnesses and counterexamples -/

/-- A fixed, valid random stream (every draw `(0, 0, 0)`). -/
def gen0 : Nat → Rat × Rat × Rat := fun _ => (0, 0, 0)

/-- A concrete stamp. -/
def stamp0 : Stamp :=
  { serverTimestamp := "2024-01-01T00:00:00.000Z".toList, id := "1700000000000_ab12cd34e".toList }

/-- A structured payload with no `populations` field. -/
def noPopsJson : SwarmRecord :=
  { sessionId := "sess_1".toList, timestamp := none, populations := none,
    totalIndividuals := 0, userAgent := none, format := none,
    serverTimestamp := none, id := none }

/-- A concrete 8-value parameter list. -/
def params8 : List JsNum :=
  [JsNum.val 10, JsNum.val 1, JsNum.val 2, JsNum.val (1/2), JsNum.val (1/2),
   JsNum.val (1/2), JsNum.val (1/10), JsNum.val (9/10)]

/-- A structured payload whose `totalIndividuals` (7) disagrees with the sum
of its population counts (2). -/
def badTotalJson : SwarmRecord :=
  { sessionId := "sess_2".toList, timestamp := none,
    populations := some [{ count := 2, parameters := mkParams params8 "red".toList }],
    totalIndividuals := 7, userAgent := none, format := none,
    serverTimestamp := none, id := none }

/-- A structured payload whose `totalIndividuals` agrees with its counts. -/
def goodJson : SwarmRecord :=
  { sessionId := "sess_3".toList, timestamp := none,
    populations := some [{ count := 3, parameters := mkParams params8 "blue".toList }],
    totalIndividuals := 3, userAgent := none, format := none,
    serverTimestamp := none, id := none }

/-- Two distinct stored records (for the history counterexample). -/
def recA : SwarmRecord := { goodJson with sessionId := "a".toList }

/-- Second distinct stored record. -/
def recB : SwarmRecord := { goodJson with sessionId := "b".toList }

/-- A POST call carrying a structured payload with no `populations` field. -/
def ctxNoPops : IngestCtx :=
  { gen := gen0, sid := "sid_a".toList, ts := "ts_a".toList, stamp := stamp0,
    body := ReqBody.json noPopsJson }

/-- A POST call carrying a structured payload whose `totalIndividuals`
disagrees with its population counts. -/
def ctxBadTotal : IngestCtx :=
  { gen := gen0, sid := "sid_b".toList, ts := "ts_b".toList, stamp := stamp0,
    body := ReqBody.json badTotalJson }

/-- A POST call carrying a consistent structured payload. -/
def ctxGood : IngestCtx :=
  { gen := gen0, sid := "sid_c".toList, ts := "ts_c".toList, stamp := stamp0,
    body := ReqBody.json goodJson }

/-- A POST call carrying a one-line DSL text payload. -/
def ctxText1 : IngestCtx :=
  { gen := gen0, sid := "sid_d".toList, ts := "ts_d".toList, stamp := stamp0,
    body := ReqBody.text "2 * (10.0, 1.0, 2.0, 0.5, 0.5, 0.5, 0.1, 0.9)".toList }

/-- A POST call carrying a text payload none of whose lines matches the DSL
grammar. -/
def ctxGarbage : IngestCtx :=
  { gen := gen0, sid := "sid_e".toList, ts := "ts_e".toList, stamp := stamp0,
    body := ReqBody.text "hello\nworld".toList }

/-! # Lemmas -/

/-! ## takeWhile / dropWhile toolkit -/

theorem takeWhile_cons_neg {p : α → Bool} {x : α} (l : List α) (h : p x = false) :
    (x :: l).takeWhile p = [] := by
  simp [List.takeWhile_cons, h]

theorem dropWhile_cons_neg {p : α → Bool} {x : α} (l : List α) (h : p x = false) :
    (x :: l).dropWhile p = x :: l := by
  simp [List.dropWhile_cons, h]

theorem takeWhile_append_all {p : α → Bool} {xs : List α} (ys : List α)
    (h : ∀ x ∈ xs, p x = true) : (xs ++ ys).takeWhile p = xs ++ ys.takeWhile p := by
  induction xs with
  | nil => simp
  | cons a l ih =>
    have ha : p a = true := h a (by simp)
    simp [List.takeWhile_cons, ha, ih fun x hx => h x (by simp [hx])]

theorem dropWhile_append_all {p : α → Bool} {xs : List α} (ys : List α)
    (h : ∀ x ∈ xs, p x = true) : (xs ++ ys).dropWhile p = ys.dropWhile p := by
  induction xs with
  | nil => simp
  | cons a l ih =>
    have ha : p a = true := h a (by simp)
    simp [List.dropWhile_cons, ha, ih fun x hx => h x (by simp [hx])]

theorem mem_takeWhile_pred {p : α → Bool} {l : List α} {x : α}
    (h : x ∈ l.takeWhile p) : p x = true := by
  induction l with
  | nil => simp at h
  | cons a t ih =>
    rw [List.takeWhile_cons] at h
    by_cases ha : p a = true
    · rw [if_pos ha] at h
      rcases List.mem_cons.mp h with rfl | h2
      · exact ha
      · exact ih h2
    · rw [if_neg ha] at h; simp at h

theorem dropWhile_head_neg {p : α → Bool} {l : List α} {y : α} {ys : List α}
    (h : l.dropWhile p = y :: ys) : p y = false := by
  induction l with
  | nil => simp at h
  | cons a t ih =>
    rw [List.dropWhile_cons] at h
    by_cases ha : p a = true
    · rw [if_pos ha] at h; exact ih h
    · rw [if_neg ha] at h
      cases h
      exact Bool.eq_false_iff.mpr ha

theorem dropWhile_eq_nil_iff_all {p : α → Bool} {l : List α} :
    l.dropWhile p = [] ↔ ∀ x ∈ l, p x = true := by
  induction l with
  | nil => simp
  | cons a t ih =>
    rw [List.dropWhile_cons]
    by_cases ha : p a = true
    · simp [ha, ih]
    · simp [ha]

/-! ## Character classes -/

theorem ws_cases {c : Char} (h : c.isWhitespace = true) :
    c = ' ' ∨ c = '\t' ∨ c = '\r' ∨ c = '\n' := by
  simp [Char.isWhitespace] at h
  tauto

theorem ws_not_digit {c : Char} (h : c.isWhitespace = true) : c.isDigit = false := by
  rcases ws_cases h with rfl | rfl | rfl | rfl <;> decide

theorem digit_not_ws {c : Char} (h : c.isDigit = true) : c.isWhitespace = false := by
  by_contra hc
  have := ws_not_digit (Bool.of_not_eq_false hc)
  simp [this] at h

theorem digit_cases {c : Char} (h : c.isDigit = true) :
    48 ≤ c.toNat ∧ c.toNat ≤ 57 := by
  simp [Char.isDigit, Char.le_def] at h
  exact ⟨h.1, h.2⟩

theorem digit_ne_of_ne_range {c d : Char} (h : c.isDigit = true)
    (hd : d.toNat < 48 ∨ 57 < d.toNat) : c ≠ d := by
  intro he
  subst he
  have := digit_cases h
  omega

theorem digitChar_isDigit {d : Nat} (h : d < 10) : (digitChar d).isDigit = true := by
  interval_cases d <;> decide

theorem charToDigit_digitChar {d : Nat} (h : d < 10) : charToDigit (digitChar d) = d := by
  interval_cases d <;> decide

/-! ## Digit strings round-trip -/

theorem natToChars_ne_nil (n : Nat) : natToChars n ≠ [] := by
  rw [natToChars]
  split <;> simp

theorem natToChars_digits (n : Nat) : ∀ c ∈ natToChars n, c.isDigit = true := by
  induction n using Nat.strong_induction_on with
  | _ n ih =>
    rw [natToChars]
    split
    · intro c hc
      rcases List.mem_singleton.mp hc with rfl
      exact digitChar_isDigit (by omega)
    · intro c hc
      rcases List.mem_append.mp hc with h1 | h1
      · exact ih (n / 10) (Nat.div_lt_self (by omega) (by omega)) c h1
      · rcases List.mem_singleton.mp h1 with rfl
        exact digitChar_isDigit (Nat.mod_lt _ (by omega))

theorem digitsToNat_snoc (xs : List Char) (c : Char) :
    digitsToNat (xs ++ [c]) = 10 * digitsToNat xs + charToDigit c := by
  simp [digitsToNat, List.foldl_append]

theorem digitsToNat_natToChars (n : Nat) : digitsToNat (natToChars n) = n := by
  induction n using Nat.strong_induction_on with
  | _ n ih =>
    rw [natToChars]
    split
    · next h =>
      simp [digitsToNat, charToDigit_digitChar h]
    · next h =>
      rw [digitsToNat_snoc, ih (n / 10) (Nat.div_lt_self (by omega) (by omega)),
        charToDigit_digitChar (Nat.mod_lt _ (by omega))]
      omega

/-! ## splitOnChar and the joins -/

theorem splitOnChar_no_sep {c : Char} {x : List Char} (h : c ∉ x) :
    splitOnChar c x = [x] := by
  induction x with
  | nil => rfl
  | cons a t ih =>
    have hac : ¬ a = c := fun he => h (by simp [he])
    rw [splitOnChar, if_neg hac, ih (fun hm => h (List.mem_cons_of_mem _ hm))]

theorem splitOnChar_append_sep {c : Char} {x : List Char} (r : List Char) (h : c ∉ x) :
    splitOnChar c (x ++ c :: r) = x :: splitOnChar c r := by
  induction x with
  | nil => simp [splitOnChar]
  | cons a t ih =>
    have hac : ¬ a = c := fun he => h (by simp [he])
    rw [List.cons_append, splitOnChar, if_neg hac,
      ih (fun hm => h (List.mem_cons_of_mem _ hm))]

theorem splitOnChar_intercalate {c : Char} :
    ∀ ls : List (List Char), ls ≠ [] → (∀ l ∈ ls, c ∉ l) →
      splitOnChar c (intercalateChars c ls) = ls
  | [], h, _ => absurd rfl h
  | [x], _, hc => by
    rw [intercalateChars, splitOnChar_no_sep (hc x (by simp))]
  | x :: y :: t, _, hc => by
    rw [intercalateChars, splitOnChar_append_sep _ (hc x (by simp)),
      splitOnChar_intercalate (y :: t) (by simp)
        (fun l hl => hc l (List.mem_cons_of_mem _ hl))]

theorem intercalateSep_cons_head (sep x : List Char) (a : Char) :
    ∀ ts, intercalateSep sep ((a :: x) :: ts) = a :: intercalateSep sep (x :: ts)
  | [] => rfl
  | _ :: _ => by simp [intercalateSep]

theorem splitOnChar_sep2 :
    ∀ (ts : List (List Char)) (t0 : List Char), (∀ l ∈ ts, ',' ∉ l) → ',' ∉ t0 →
      splitOnChar ',' (intercalateSep [',', ' '] (t0 :: ts)) =
        t0 :: ts.map (fun x => ' ' :: x) := by
  intro ts
  induction ts with
  | nil => intro t0 _ h0; rw [intercalateSep, splitOnChar_no_sep h0]; rfl
  | cons y t ih =>
    intro t0 hts h0
    have step : intercalateSep [',', ' '] (t0 :: y :: t) =
        t0 ++ ',' :: intercalateSep [',', ' '] ((' ' :: y) :: t) := by
      rw [intercalateSep, intercalateSep_cons_head]
      simp
    rw [step, splitOnChar_append_sep _ h0,
      ih (' ' :: y)
        (fun l hl => hts l (List.mem_cons_of_mem _ hl))
        (by
          intro hm
          rcases List.mem_cons.mp hm with he | hm2
          · exact absurd he.symm (by decide)
          · exact hts y (by simp) hm2)]
    simp

theorem intercalateChars_snoc (c : Char) :
    ∀ (xs : List (List Char)) (x : List Char), xs ≠ [] →
      intercalateChars c (xs ++ [x]) = intercalateChars c xs ++ c :: x
  | [], _, h => absurd rfl h
  | [y], x, _ => by simp [intercalateChars]
  | y :: z :: t, x, _ => by
    rw [show (y :: z :: t) ++ [x] = y :: z :: (t ++ [x]) by simp,
      show intercalateChars c (y :: z :: (t ++ [x])) =
        y ++ c :: intercalateChars c (z :: (t ++ [x])) from rfl,
      show z :: (t ++ [x]) = (z :: t) ++ [x] by simp,
      intercalateChars_snoc c (z :: t) x (by simp),
      show intercalateChars c (y :: z :: t) = y ++ c :: intercalateChars c (z :: t) from rfl]
    simp

/-! ## Trimming -/

theorem trimL_cons_neg {c : Char} (l : List Char) (h : c.isWhitespace = false) :
    trimL (c :: l) = c :: l :=
  dropWhile_cons_neg l h

theorem trimL_all {l : List Char} (h : ∀ c ∈ l, c.isWhitespace = true) :
    trimL l = [] :=
  dropWhile_eq_nil_iff_all.mpr h

theorem trimL_ws_append {w : List Char} (l : List Char)
    (h : ∀ c ∈ w, c.isWhitespace = true) : trimL (w ++ l) = trimL l :=
  dropWhile_append_all l h

theorem trimL_decomp (l : List Char) :
    l = l.takeWhile Char.isWhitespace ++ trimL l :=
  (List.takeWhile_append_dropWhile _ _).symm

theorem trimL_append_of_ne {l : List Char} (r : List Char) (h : trimL l ≠ []) :
    trimL (l ++ r) = trimL l ++ r := by
  rcases hd : trimL l with _ | ⟨y, ys⟩
  · exact absurd hd h
  · have hy : y.isWhitespace = false := dropWhile_head_neg hd
    conv_lhs => rw [trimL_decomp l, hd]
    rw [List.append_assoc, trimL_ws_append _ (fun c hc => mem_takeWhile_pred hc),
      List.cons_append, trimL_cons_neg _ hy]

theorem mem_trimL (x : Char) {l : List Char} (h : x ∈ trimL l) : x ∈ l := by
  have hdc := trimL_decomp l
  rw [hdc]
  exact List.mem_append.mpr (Or.inr h)

theorem trimR_eq_nil_rev {l : List Char} (h : trimR l = []) : trimL l.reverse = [] := by
  unfold trimR at h
  simpa using congrArg List.reverse h

theorem trimR_all {l : List Char} (h : ∀ c ∈ l, c.isWhitespace = true) :
    trimR l = [] := by
  unfold trimR
  rw [trimL_all (fun c hc => h c (List.mem_reverse.mp hc))]
  rfl

theorem trimR_append_ws {w : List Char} (l : List Char)
    (h : ∀ c ∈ w, c.isWhitespace = true) : trimR (l ++ w) = trimR l := by
  unfold trimR
  rw [List.reverse_append, trimL_ws_append _ (fun c hc => h c (List.mem_reverse.mp hc))]

theorem trimR_append_of_ne {r : List Char} (l : List Char) (h : trimR r ≠ []) :
    trimR (l ++ r) = l ++ trimR r := by
  have hr : trimL r.reverse ≠ [] := by
    intro he
    apply h
    unfold trimR
    rw [he]
    rfl
  unfold trimR
  rw [List.reverse_append, trimL_append_of_ne _ hr, List.reverse_append,
    List.reverse_reverse]

theorem trimR_snoc_neg {c : Char} (l : List Char) (h : c.isWhitespace = false) :
    trimR (l ++ [c]) = l ++ [c] := by
  unfold trimR
  rw [List.reverse_append]
  simp only [List.reverse_cons, List.reverse_nil, List.nil_append, List.singleton_append]
  rw [trimL_cons_neg _ h]
  simp

theorem mem_trimR (x : Char) {l : List Char} (h : x ∈ trimR l) : x ∈ l := by
  unfold trimR at h
  rw [List.mem_reverse] at h
  exact List.mem_reverse.mp (mem_trimL x h)

/-! ## Shape of a matching line -/

theorem takeWhile_digit_ws_nil {u : List Char} {x : Char} (X : List Char)
    (hu : ∀ c ∈ u, c.isWhitespace = true) (hx : x.isDigit = false) :
    (u ++ x :: X).takeWhile Char.isDigit = [] := by
  rcases u with _ | ⟨w, t⟩
  · exact takeWhile_cons_neg _ hx
  · exact takeWhile_cons_neg _ (ws_not_digit (hu w (by simp)))

theorem dropWhile_digit_ws_id {u : List Char} {x : Char} (X : List Char)
    (hu : ∀ c ∈ u, c.isWhitespace = true) (hx : x.isDigit = false) :
    (u ++ x :: X).dropWhile Char.isDigit = u ++ x :: X := by
  rcases u with _ | ⟨w, t⟩
  · exact dropWhile_cons_neg _ hx
  · exact dropWhile_cons_neg _ (ws_not_digit (hu w (by simp)))

theorem dropWhile_ws_to_head {u : List Char} {x : Char} (X : List Char)
    (hu : ∀ c ∈ u, c.isWhitespace = true) (hx : x.isWhitespace = false) :
    (u ++ x :: X).dropWhile Char.isWhitespace = x :: X := by
  rw [dropWhile_append_all _ hu, dropWhile_cons_neg _ hx]

theorem specLineParse_shape
    (ws0 d ws1 ws2 inner ws3 : List Char)
    (hw0 : ∀ c ∈ ws0, c.isWhitespace = true)
    (hdne : d ≠ []) (hd : ∀ c ∈ d, c.isDigit = true)
    (hw1 : ∀ c ∈ ws1, c.isWhitespace = true)
    (hw2 : ∀ c ∈ ws2, c.isWhitespace = true)
    (hine : inner ≠ []) (hin : ∀ c ∈ inner, notRp c = true)
    (hw3 : ∀ c ∈ ws3, c.isWhitespace = true) :
    specLineParse (lineShape ws0 d ws1 ws2 inner ws3) = some (d, inner) := by
  rcases d with _ | ⟨c0, dt⟩
  · exact absurd rfl hdne
  have hc0 : c0.isWhitespace = false := digit_not_ws (hd c0 (by simp))
  have f1 : (lineShape ws0 (c0 :: dt) ws1 ws2 inner ws3).dropWhile Char.isWhitespace =
      c0 :: (dt ++ (ws1 ++ ('*' :: (ws2 ++ ('(' :: (inner ++ (')' :: ws3))))))) := by
    simp only [lineShape]
    rw [dropWhile_append_all _ hw0, List.cons_append, dropWhile_cons_neg _ hc0]
  have f2 : (c0 :: (dt ++ (ws1 ++ ('*' :: (ws2 ++ ('(' :: (inner ++ (')' :: ws3)))))))).takeWhile
      Char.isDigit = c0 :: dt := by
    rw [← List.cons_append, takeWhile_append_all _ hd,
      takeWhile_digit_ws_nil _ hw1 (by decide), List.append_nil]
  have f3 : (c0 :: (dt ++ (ws1 ++ ('*' :: (ws2 ++ ('(' :: (inner ++ (')' :: ws3)))))))).dropWhile
      Char.isDigit = ws1 ++ ('*' :: (ws2 ++ ('(' :: (inner ++ (')' :: ws3))))) := by
    rw [← List.cons_append, dropWhile_append_all _ hd,
      dropWhile_digit_ws_id _ hw1 (by decide)]
  have f4 : (ws1 ++ ('*' :: (ws2 ++ ('(' :: (inner ++ (')' :: ws3)))))).dropWhile
      Char.isWhitespace = '*' :: (ws2 ++ ('(' :: (inner ++ (')' :: ws3)))) :=
    dropWhile_ws_to_head _ hw1 (by decide)
  have f5 : (ws2 ++ ('(' :: (inner ++ (')' :: ws3)))).dropWhile Char.isWhitespace =
      '(' :: (inner ++ (')' :: ws3)) :=
    dropWhile_ws_to_head _ hw2 (by decide)
  have f6 : (inner ++ (')' :: ws3)).takeWhile notRp = inner := by
    rw [takeWhile_append_all _ hin, takeWhile_cons_neg _ (by decide), List.append_nil]
  have f7 : (inner ++ (')' :: ws3)).dropWhile notRp = ')' :: ws3 := by
    rw [dropWhile_append_all _ hin, dropWhile_cons_neg _ (by decide)]
  have f8 : ws3.dropWhile Char.isWhitespace = [] := dropWhile_eq_nil_iff_all.mpr hw3
  simp only [specLineParse, f1, f2, f3, f4, List.head?_cons, List.tail_cons, f5, f6, f7, f8]
  simp [hine]

theorem tryMatchAt_shape
    (d ws1 ws2 inner rest : List Char)
    (hdne : d ≠ []) (hd : ∀ c ∈ d, c.isDigit = true)
    (hw1 : ∀ c ∈ ws1, c.isWhitespace = true)
    (hw2 : ∀ c ∈ ws2, c.isWhitespace = true)
    (hine : inner ≠ []) (hin : ∀ c ∈ inner, notRp c = true) :
    tryMatchAt (lineShape [] d ws1 ws2 inner rest) = some (d, inner) := by
  rcases d with _ | ⟨c0, dt⟩
  · exact absurd rfl hdne
  have hshape : lineShape [] (c0 :: dt) ws1 ws2 inner rest =
      c0 :: (dt ++ (ws1 ++ ('*' :: (ws2 ++ ('(' :: (inner ++ (')' :: rest))))))) := by
    simp [lineShape]
  have f2 : (c0 :: (dt ++ (ws1 ++ ('*' :: (ws2 ++ ('(' :: (inner ++ (')' :: rest)))))))).takeWhile
      Char.isDigit = c0 :: dt := by
    rw [← List.cons_append, takeWhile_append_all _ hd,
      takeWhile_digit_ws_nil _ hw1 (by decide), List.append_nil]
  have f3 : (c0 :: (dt ++ (ws1 ++ ('*' :: (ws2 ++ ('(' :: (inner ++ (')' :: rest)))))))).dropWhile
      Char.isDigit = ws1 ++ ('*' :: (ws2 ++ ('(' :: (inner ++ (')' :: rest))))) := by
    rw [← List.cons_append, dropWhile_append_all _ hd,
      dropWhile_digit_ws_id _ hw1 (by decide)]
  have f4 : (ws1 ++ ('*' :: (ws2 ++ ('(' :: (inner ++ (')' :: rest)))))).dropWhile
      Char.isWhitespace = '*' :: (ws2 ++ ('(' :: (inner ++ (')' :: rest)))) :=
    dropWhile_ws_to_head _ hw1 (by decide)
  have f5 : (ws2 ++ ('(' :: (inner ++ (')' :: rest)))).dropWhile Char.isWhitespace =
      '(' :: (inner ++ (')' :: rest)) :=
    dropWhile_ws_to_head _ hw2 (by decide)
  have f6 : (inner ++ (')' :: rest)).takeWhile notRp = inner := by
    rw [takeWhile_append_all _ hin, takeWhile_cons_neg _ (by decide), List.append_nil]
  have f7 : (inner ++ (')' :: rest)).dropWhile notRp = ')' :: rest := by
    rw [dropWhile_append_all _ hin, dropWhile_cons_neg _ (by decide)]
  simp only [tryMatchAt, hshape, f2, f3, f4, List.head?_cons, List.tail_cons, f5, f6, f7]
  simp [hine]

theorem tryMatchAt_cons_not_digit {c : Char} (l : List Char) (h : c.isDigit = false) :
    tryMatchAt (c :: l) = none := by
  simp only [tryMatchAt, takeWhile_cons_neg _ h]
  simp

theorem findMatch_ws_skip {w : List Char} (l : List Char)
    (hw : ∀ c ∈ w, c.isWhitespace = true) : findMatch (w ++ l) = findMatch l := by
  induction w with
  | nil => rfl
  | cons a t ih =>
    have ha : a.isDigit = false := ws_not_digit (hw a (by simp))
    rw [List.cons_append, findMatch, tryMatchAt_cons_not_digit _ ha]
    exact ih fun c hc => hw c (List.mem_cons_of_mem _ hc)

theorem findMatch_shape
    (ws0 d ws1 ws2 inner rest : List Char)
    (hw0 : ∀ c ∈ ws0, c.isWhitespace = true)
    (hdne : d ≠ []) (hd : ∀ c ∈ d, c.isDigit = true)
    (hw1 : ∀ c ∈ ws1, c.isWhitespace = true)
    (hw2 : ∀ c ∈ ws2, c.isWhitespace = true)
    (hine : inner ≠ []) (hin : ∀ c ∈ inner, notRp c = true) :
    findMatch (lineShape ws0 d ws1 ws2 inner rest) = some (d, inner) := by
  have hsplit : lineShape ws0 d ws1 ws2 inner rest = ws0 ++ lineShape [] d ws1 ws2 inner rest := by
    simp [lineShape]
  rw [hsplit, findMatch_ws_skip _ hw0]
  rcases d with _ | ⟨c0, dt⟩
  · exact absurd rfl hdne
  have hshape : lineShape [] (c0 :: dt) ws1 ws2 inner rest =
      c0 :: (dt ++ (ws1 ++ ('*' :: (ws2 ++ ('(' :: (inner ++ (')' :: rest))))))) := by
    simp [lineShape]
  rw [hshape, findMatch, ← hshape, tryMatchAt_shape _ _ _ _ _ (by simp) hd hw1 hw2 hine hin]

theorem eq_cons_tail_of_head {l : List α} {a : α} (h : l.head? = some a) :
    l = a :: l.tail := by
  cases l with
  | nil => simp at h
  | cons x t =>
    simp only [List.head?_cons, Option.some.injEq] at h
    rw [h]
    rfl

theorem specLineParse_inv {l d inner : List Char}
    (h : specLineParse l = some (d, inner)) :
    ∃ ws0 ws1 ws2 ws3,
      l = lineShape ws0 d ws1 ws2 inner ws3 ∧
      (∀ c ∈ ws0, c.isWhitespace = true) ∧ d ≠ [] ∧ (∀ c ∈ d, c.isDigit = true) ∧
      (∀ c ∈ ws1, c.isWhitespace = true) ∧ (∀ c ∈ ws2, c.isWhitespace = true) ∧
      inner ≠ [] ∧ (∀ c ∈ inner, notRp c = true) ∧
      (∀ c ∈ ws3, c.isWhitespace = true) := by
  simp only [specLineParse] at h
  split_ifs at h with c1 c2 c3 c4 c5 c6
  cases h
  refine ⟨l.takeWhile Char.isWhitespace,
    ((l.dropWhile Char.isWhitespace).dropWhile Char.isDigit).takeWhile Char.isWhitespace,
    ((((l.dropWhile Char.isWhitespace).dropWhile Char.isDigit).dropWhile
      Char.isWhitespace).tail).takeWhile Char.isWhitespace,
    (((((((l.dropWhile Char.isWhitespace).dropWhile Char.isDigit).dropWhile
      Char.isWhitespace).tail.dropWhile Char.isWhitespace).tail).dropWhile notRp).tail),
    ?_, fun c hc => mem_takeWhile_pred hc, c1,
    fun c hc => mem_takeWhile_pred hc,
    fun c hc => mem_takeWhile_pred hc, fun c hc => mem_takeWhile_pred hc,
    c4, fun c hc => mem_takeWhile_pred hc,
    dropWhile_eq_nil_iff_all.mp c6⟩
  have e2c := eq_cons_tail_of_head c2
  have e3c := eq_cons_tail_of_head c3
  have e5c := eq_cons_tail_of_head c5
  simp only [lineShape]
  conv_lhs => rw [← List.takeWhile_append_dropWhile Char.isWhitespace l]
  congr 1
  conv_lhs => rw [← List.takeWhile_append_dropWhile Char.isDigit
    (l.dropWhile Char.isWhitespace)]
  congr 1
  conv_lhs => rw [← List.takeWhile_append_dropWhile Char.isWhitespace
    ((l.dropWhile Char.isWhitespace).dropWhile Char.isDigit)]
  congr 1
  rw [e2c]
  congr 1
  conv_lhs => rw [← List.takeWhile_append_dropWhile Char.isWhitespace
    (((l.dropWhile Char.isWhitespace).dropWhile Char.isDigit).dropWhile
      Char.isWhitespace).tail]
  congr 1
  rw [e3c]
  congr 1
  conv_lhs => rw [← List.takeWhile_append_dropWhile notRp
    ((((l.dropWhile Char.isWhitespace).dropWhile Char.isDigit).dropWhile
      Char.isWhitespace).tail.dropWhile Char.isWhitespace).tail]
  congr 1

theorem findMatch_of_spec {l d inner : List Char}
    (h : specLineParse l = some (d, inner)) : findMatch l = some (d, inner) := by
  obtain ⟨ws0, ws1, ws2, ws3, rfl, hw0, hdne, hd, hw1, hw2, hine, hin, _⟩ :=
    specLineParse_inv h
  exact findMatch_shape _ _ _ _ _ _ hw0 hdne hd hw1 hw2 hine hin

theorem trimL_lineShape {ws0 d ws1 ws2 inner ws3 : List Char}
    (hw0 : ∀ c ∈ ws0, c.isWhitespace = true) (hdne : d ≠ [])
    (hd : ∀ c ∈ d, c.isDigit = true) :
    trimL (lineShape ws0 d ws1 ws2 inner ws3) = lineShape [] d ws1 ws2 inner ws3 := by
  rcases d with _ | ⟨c0, dt⟩
  · exact absurd rfl hdne
  have hc0 : c0.isWhitespace = false := digit_not_ws (hd c0 (by simp))
  have h1 : lineShape ws0 (c0 :: dt) ws1 ws2 inner ws3 =
      ws0 ++ (c0 :: (dt ++ (ws1 ++ ('*' :: (ws2 ++ ('(' :: (inner ++ (')' :: ws3)))))))) := by
    simp [lineShape]
  have h2 : lineShape ([] : List Char) (c0 :: dt) ws1 ws2 inner ws3 =
      c0 :: (dt ++ (ws1 ++ ('*' :: (ws2 ++ ('(' :: (inner ++ (')' :: ws3))))))) := by
    simp [lineShape]
  rw [h1, h2, trimL, dropWhile_append_all _ hw0, dropWhile_cons_neg _ hc0]

theorem trimR_lineShape {ws0 d ws1 ws2 inner ws3 : List Char}
    (hw3 : ∀ c ∈ ws3, c.isWhitespace = true) :
    trimR (lineShape ws0 d ws1 ws2 inner ws3) = lineShape ws0 d ws1 ws2 inner [] := by
  have h1 : lineShape ws0 d ws1 ws2 inner ws3 =
      (ws0 ++ (d ++ (ws1 ++ ('*' :: (ws2 ++ ('(' :: inner))))) ++ [')']) ++ ws3 := by
    simp [lineShape]
  have h2 : lineShape ws0 d ws1 ws2 inner [] =
      ws0 ++ (d ++ (ws1 ++ ('*' :: (ws2 ++ ('(' :: inner))))) ++ [')'] := by
    simp [lineShape]
  rw [h1, h2, trimR_append_ws _ hw3, trimR_snoc_neg _ (by decide)]

theorem specLineParse_trimL {l d inner : List Char}
    (h : specLineParse l = some (d, inner)) :
    specLineParse (trimL l) = some (d, inner) := by
  obtain ⟨ws0, ws1, ws2, ws3, rfl, hw0, hdne, hd, hw1, hw2, hine, hin, hw3⟩ :=
    specLineParse_inv h
  rw [trimL_lineShape hw0 hdne hd]
  exact specLineParse_shape _ _ _ _ _ _ (by simp) hdne hd hw1 hw2 hine hin hw3

theorem specLineParse_trimR {l d inner : List Char}
    (h : specLineParse l = some (d, inner)) :
    specLineParse (trimR l) = some (d, inner) := by
  obtain ⟨ws0, ws1, ws2, ws3, rfl, hw0, hdne, hd, hw1, hw2, hine, hin, hw3⟩ :=
    specLineParse_inv h
  rw [trimR_lineShape hw3]
  exact specLineParse_shape _ _ _ _ _ _ hw0 hdne hd hw1 hw2 hine hin (by simp)

theorem specLineParse_trimBoth {l d inner : List Char}
    (h : specLineParse l = some (d, inner)) :
    specLineParse (trimBoth l) = some (d, inner) :=
  specLineParse_trimR (specLineParse_trimL h)

theorem trimBoth_ne_nil_of_spec {l d inner : List Char}
    (h : specLineParse l = some (d, inner)) : trimBoth l ≠ [] := by
  intro he
  have h2 := specLineParse_trimBoth h
  rw [he] at h2
  simp [specLineParse] at h2

theorem parseLine_of_spec {l d inner : List Char}
    (h : specLineParse l = some (d, inner)) :
    parseLine l =
      (if ((splitOnChar ',' inner).map (fun p => jsParseFloat (trimBoth p))).length = 8
       then some (digitsToNat d, (splitOnChar ',' inner).map (fun p => jsParseFloat (trimBoth p)))
       else none) := by
  rw [parseLine, findMatch_of_spec h]

theorem parseLine_trimL_of_spec {l d inner : List Char}
    (h : specLineParse l = some (d, inner)) : parseLine (trimL l) = parseLine l := by
  rw [parseLine_of_spec (specLineParse_trimL h), parseLine_of_spec h]

theorem parseLine_trimR_of_spec {l d inner : List Char}
    (h : specLineParse l = some (d, inner)) : parseLine (trimR l) = parseLine l := by
  rw [parseLine_of_spec (specLineParse_trimR h), parseLine_of_spec h]

theorem wf_elim {l : List Char} (h : wfLine2dp l = true) :
    ∃ d inner, specLineParse l = some (d, inner) ∧
      (splitOnChar ',' inner).length = 8 ∧
      ∀ t ∈ splitOnChar ',' inner, twoDecTok t = true := by
  unfold wfLine2dp at h
  rcases hsp : specLineParse l with _ | ⟨d, inner⟩
  · rw [hsp] at h; cases h
  · rw [hsp] at h
    simp only [Bool.and_eq_true, decide_eq_true_eq, List.all_eq_true] at h
    exact ⟨d, inner, rfl, h.1, h.2⟩

theorem twoDec_elim {t : List Char} (h : twoDecTok t = true) :
    ∃ q, jsParseFloat (trimBoth t) = JsNum.val q ∧ (q * 100).den = 1 := by
  unfold twoDecTok at h
  rcases hv : jsParseFloat (trimBoth t) with _ | q
  · rw [hv] at h; cases h
  · rw [hv] at h
    exact ⟨q, rfl, of_decide_eq_true h⟩

/-! ## parseLoop characterizations -/

theorem parseLoop_total_eq (gen : Nat → Rat × Rat × Rat) :
    ∀ (ls : List (List Char)) (i : Nat),
      (parseLoop gen i ls).2 = sumCounts (parseLoop gen i ls).1 := by
  intro ls
  induction ls with
  | nil => intro i; simp [parseLoop, sumCounts]
  | cons l rest ih =>
    intro i
    rw [parseLoop]
    rcases hp : parseLine l with _ | cp
    · exact ih i
    · simp only []
      rw [ih (i + 1)]
      simp [sumCounts]

theorem parseLoop_none (gen : Nat → Rat × Rat × Rat) :
    ∀ (ls : List (List Char)) (i : Nat), (∀ l ∈ ls, parseLine l = none) →
      parseLoop gen i ls = ([], 0) := by
  intro ls
  induction ls with
  | nil => intro i _; rfl
  | cons l rest ih =>
    intro i h
    rw [parseLoop, h l (by simp)]
    exact ih i fun x hx => h x (List.mem_cons_of_mem _ hx)

theorem parseLine_some_len {l : List Char} {cp : Nat × List JsNum}
    (h : parseLine l = some cp) : cp.2.length = 8 := by
  rw [parseLine] at h
  split at h
  · cases h
  · dsimp only [] at h
    split at h
    · next hlen => cases h; simpa using hlen
    · cases h

theorem eight_elems {l : List α} (h : l.length = 8) :
    ∃ a b c d e f g k, l = [a, b, c, d, e, f, g, k] := by
  rcases l with _ | ⟨a, _ | ⟨b, _ | ⟨c, _ | ⟨d, _ | ⟨e, _ | ⟨f, _ | ⟨g, _ | ⟨k, _ | ⟨x, t⟩⟩⟩⟩⟩⟩⟩⟩⟩ <;>
    simp at h
  exact ⟨a, b, c, d, e, f, g, k, rfl⟩

theorem paramFields_mkParams {params : List JsNum} (h : params.length = 8)
    (color : List Char) : paramFields (mkParams params color) = params := by
  obtain ⟨a, b, c, d, e, f, g, k, rfl⟩ := eight_elems h
  rfl

theorem parseLoop_map_popData (gen : Nat → Rat × Rat × Rat) :
    ∀ (ls : List (List Char)) (i : Nat),
      (parseLoop gen i ls).1.map popData =
        (ls.filterMap parseLine).map (fun cp => ((cp.1 : Int), cp.2)) := by
  intro ls
  induction ls with
  | nil => intro i; rfl
  | cons l rest ih =>
    intro i
    rw [parseLoop, List.filterMap_cons]
    rcases hp : parseLine l with _ | cp
    · exact ih i
    · simp only [List.map_cons]
      rw [← ih (i + 1)]
      simp [popData, paramFields_mkParams (parseLine_some_len hp)]

theorem filterMap_eq_of_map_eq {p : α → Option β} :
    ∀ {l1 l2 : List α}, l1.map p = l2.map p → l1.filterMap p = l2.filterMap p := by
  intro l1
  induction l1 with
  | nil =>
    intro l2 h
    rcases l2 with _ | ⟨x, t⟩
    · rfl
    · simp at h
  | cons a t ih =>
    intro l2 h
    rcases l2 with _ | ⟨x, t2⟩
    · simp at h
    · simp only [List.map_cons, List.cons.injEq] at h
      rw [List.filterMap_cons, List.filterMap_cons, h.1, ih h.2]

/-! ## parseFloat / toFixed(2) round trip -/

theorem takeWhile_all_id {p : α → Bool} {l : List α} (h : ∀ x ∈ l, p x = true) :
    l.takeWhile p = l := by
  have := @takeWhile_append_all _ p l [] h
  simpa using this

theorem digitsToNat_two (x y : Nat) (hx : x < 10) (hy : y < 10) :
    digitsToNat [digitChar x, digitChar y] = 10 * x + y := by
  simp [digitsToNat, List.foldl, charToDigit_digitChar hx, charToDigit_digitChar hy]

theorem jsParseMag_fixed (a x y : Nat) (hx : x < 10) (hy : y < 10) :
    jsParseMag (natToChars a ++ '.' :: [digitChar x, digitChar y]) =
      some ((a : Rat) + ((10 * x + y : Nat) : Rat) / 100) := by
  have hds : ∀ c ∈ natToChars a, c.isDigit = true := natToChars_digits a
  have hd1 : (natToChars a ++ '.' :: [digitChar x, digitChar y]).takeWhile Char.isDigit =
      natToChars a := by
    rw [takeWhile_append_all _ hds, takeWhile_cons_neg _ (by decide), List.append_nil]
  have hl2 : (natToChars a ++ '.' :: [digitChar x, digitChar y]).dropWhile Char.isDigit =
      '.' :: [digitChar x, digitChar y] := by
    rw [dropWhile_append_all _ hds, dropWhile_cons_neg _ (by decide)]
  have hd2 : ([digitChar x, digitChar y] : List Char).takeWhile Char.isDigit =
      [digitChar x, digitChar y] :=
    takeWhile_all_id (by
      intro c hc
      simp only [List.mem_cons, List.mem_singleton] at hc
      rcases hc with rfl | rfl | hc
      · exact digitChar_isDigit hx
      · exact digitChar_isDigit hy
      · simp at hc)
  simp only [jsParseMag, hd1, hl2, hd2, List.head?_cons, List.tail_cons, if_true]
  rw [if_neg (by simp [natToChars_ne_nil a])]
  rw [digitsToNat_natToChars, digitsToNat_two x y hx hy]
  norm_num

theorem head_digit_no_sign {l : List Char} {c0 : Char} (hh : l.head? = some c0)
    (hc0 : c0.isDigit = true) :
    jsParseFloat l =
      (match jsParseMag l with
       | none => JsNum.nan
       | some m => JsNum.val m) := by
  have hne1 : c0 ≠ '-' := digit_ne_of_ne_range hc0 (by decide)
  have hne2 : c0 ≠ '+' := digit_ne_of_ne_range hc0 (by decide)
  simp only [jsParseFloat, hh, Option.some.injEq]
  rw [if_neg hne1, if_neg (by
    intro hor
    rcases hor with h1 | h1
    · exact hne1 h1
    · exact hne2 h1)]
  rcases jsParseMag l with _ | m
  · rfl
  · simp

theorem jsParseFloat_neg_of_mag {r : List Char} :
    jsParseFloat ('-' :: r) =
      (match jsParseMag r with
       | none => JsNum.nan
       | some m => JsNum.val (-m)) := by
  simp only [jsParseFloat, List.head?_cons, List.tail_cons, Option.some.injEq,
    if_true, true_or]
  rcases jsParseMag r with _ | m
  · rfl
  · simp

theorem intToChars_natCast (n : Nat) : intToChars (n : Int) = natToChars n := by
  rw [intToChars, if_neg (by omega)]
  simp

theorem jsParseFloat_fixed_form (a x y : Nat) (hx : x < 10) (hy : y < 10) :
    jsParseFloat (natToChars a ++ '.' :: [digitChar x, digitChar y]) =
      JsNum.val ((a : Rat) + ((10 * x + y : Nat) : Rat) / 100) := by
  obtain ⟨c0, ct, hnc⟩ : ∃ c0 ct, natToChars a = c0 :: ct := by
    rcases hx2 : natToChars a with _ | ⟨c0, ct⟩
    · exact absurd hx2 (natToChars_ne_nil a)
    · exact ⟨c0, ct, rfl⟩
  have hc0 : c0.isDigit = true := by
    have hds := natToChars_digits a
    rw [hnc] at hds
    exact hds c0 (by simp)
  have hh : (natToChars a ++ '.' :: [digitChar x, digitChar y]).head? = some c0 := by
    rw [hnc]
    rfl
  rw [head_digit_no_sign hh hc0, jsParseMag_fixed a x y hx hy]

theorem jsParseFloat_fixed_form_neg (a x y : Nat) (hx : x < 10) (hy : y < 10) :
    jsParseFloat ('-' :: (natToChars a ++ '.' :: [digitChar x, digitChar y])) =
      JsNum.val (-((a : Rat) + ((10 * x + y : Nat) : Rat) / 100)) := by
  rw [jsParseFloat_neg_of_mag, jsParseMag_fixed a x y hx hy]

theorem nat_div_mod_val (k : Nat) :
    ((k / 100 : Nat) : Rat) + ((k % 100 : Nat) : Rat) / 100 = (k : Rat) / 100 := by
  have h2 : ((100 * (k / 100) + k % 100 : Nat) : Rat) = (k : Rat) := by
    rw [Nat.div_add_mod k 100]
  push_cast at h2
  field_simp
  linarith

theorem jsParseFloat_fixed2 {q : Rat} (h : (q * 100).den = 1) :
    jsParseFloat (fixed2 q) = JsNum.val q := by
  have hm : (((q * 100).num : Int) : Rat) = q * 100 := (Rat.den_eq_one_iff _).mp h
  by_cases hq : q < 0
  · have hmneg : (q * 100).num < 0 :=
      Rat.num_neg.mpr (by nlinarith)
    have hmag : (-q) * 100 = (((-(q * 100).num) : Int) : Rat) := by
      push_cast
      rw [hm]
      ring
    have hfl : ⌊(-q) * 100 + 1 / 2⌋ = -(q * 100).num := by
      rw [hmag, Int.floor_int_add]
      norm_num
    have hk : (((⌊(-q) * 100 + 1 / 2⌋).toNat : Nat) : Int) = -(q * 100).num := by
      rw [hfl]
      omega
    rw [fixed2, if_pos hq]
    rw [show fixed2nn (-q) = natToChars ((⌊(-q) * 100 + 1 / 2⌋).toNat / 100) ++ '.' ::
      [digitChar ((⌊(-q) * 100 + 1 / 2⌋).toNat % 100 / 10),
       digitChar ((⌊(-q) * 100 + 1 / 2⌋).toNat % 100 % 10)] from rfl]
    rw [jsParseFloat_fixed_form_neg _ _ _ (by omega) (by omega)]
    congr 1
    have harith : 10 * ((⌊(-q) * 100 + 1 / 2⌋).toNat % 100 / 10) +
        (⌊(-q) * 100 + 1 / 2⌋).toNat % 100 % 10 = (⌊(-q) * 100 + 1 / 2⌋).toNat % 100 := by
      omega
    rw [harith, nat_div_mod_val]
    have hkq : (((⌊(-q) * 100 + 1 / 2⌋).toNat : Nat) : Rat) = -(q * 100) := by
      have h2 : ((((⌊(-q) * 100 + 1 / 2⌋).toNat : Nat) : Int) : Rat) =
          (((-(q * 100).num) : Int) : Rat) := by rw [hk]
      push_cast at h2
      rw [hm] at h2
      exact h2
    rw [hkq]
    field_simp
  · have hmnn : 0 ≤ (q * 100).num :=
      Rat.num_nonneg.mpr (by nlinarith [not_lt.mp hq])
    have hfl : ⌊q * 100 + 1 / 2⌋ = (q * 100).num := by
      rw [show q * 100 = (((q * 100).num : Int) : Rat) from hm.symm, Int.floor_int_add]
      norm_num
    have hk : (((⌊q * 100 + 1 / 2⌋).toNat : Nat) : Int) = (q * 100).num := by
      rw [hfl]
      omega
    rw [fixed2, if_neg hq]
    rw [show fixed2nn q = natToChars ((⌊q * 100 + 1 / 2⌋).toNat / 100) ++ '.' ::
      [digitChar ((⌊q * 100 + 1 / 2⌋).toNat % 100 / 10),
       digitChar ((⌊q * 100 + 1 / 2⌋).toNat % 100 % 10)] from rfl]
    rw [jsParseFloat_fixed_form _ _ _ (by omega) (by omega)]
    congr 1
    have harith : 10 * ((⌊q * 100 + 1 / 2⌋).toNat % 100 / 10) +
        (⌊q * 100 + 1 / 2⌋).toNat % 100 % 10 = (⌊q * 100 + 1 / 2⌋).toNat % 100 := by
      omega
    rw [harith, nat_div_mod_val]
    have hkq : (((⌊q * 100 + 1 / 2⌋).toNat : Nat) : Rat) = q * 100 := by
      have h2 : ((((⌊q * 100 + 1 / 2⌋).toNat : Nat) : Int) : Rat) =
          ((((q * 100).num) : Int) : Rat) := by rw [hk]
      push_cast at h2
      rw [hm] at h2
      exact h2
    rw [hkq]
    field_simp

/-! ## Serialized lines parse back -/

theorem fixed2_chars {q : Rat} : ∀ c ∈ fixed2 q, c.isDigit = true ∨ c = '.' ∨ c = '-' := by
  intro c hc
  rw [fixed2] at hc
  have hnn : ∀ r : Rat, c ∈ fixed2nn r → c.isDigit = true ∨ c = '.' ∨ c = '-' := by
    intro r hm
    rw [fixed2nn] at hm
    simp only [List.mem_append, List.mem_cons, List.mem_singleton] at hm
    rcases hm with hm | hm | hm | hm
    · exact Or.inl (natToChars_digits _ c hm)
    · exact Or.inr (Or.inl hm)
    · exact Or.inl (hm ▸ digitChar_isDigit (by omega))
    · rcases hm with hm | hm
      · exact Or.inl (hm ▸ digitChar_isDigit (by omega))
      · simp at hm
  split at hc
  · rcases List.mem_cons.mp hc with rfl | hc2
    · exact Or.inr (Or.inr rfl)
    · exact hnn _ hc2
  · exact hnn _ hc

theorem toFixed2_chars {x : JsNum} :
    ∀ c ∈ toFixed2 x, c.isDigit = true ∨ c = '.' ∨ c = '-' ∨ c = 'N' ∨ c = 'a' := by
  intro c hc
  rcases x with _ | q
  · rw [toFixed2] at hc
    fin_cases hc
    · exact Or.inr (Or.inr (Or.inr (Or.inl rfl)))
    · exact Or.inr (Or.inr (Or.inr (Or.inr rfl)))
    · exact Or.inr (Or.inr (Or.inr (Or.inl rfl)))
  · rcases fixed2_chars c hc with h | h | h
    · exact Or.inl h
    · exact Or.inr (Or.inl h)
    · exact Or.inr (Or.inr (Or.inl h))

theorem toFixed2_no_comma {x : JsNum} : ',' ∉ toFixed2 x := by
  intro hm
  rcases toFixed2_chars ',' hm with h | h | h | h | h <;> simp_all

theorem toFixed2_no_rp {x : JsNum} : ∀ c ∈ toFixed2 x, notRp c = true := by
  intro c hc
  have hne : c ≠ ')' := by
    rcases toFixed2_chars c hc with h | h | h | h | h
    · exact digit_ne_of_ne_range h (by decide)
    · subst h; decide
    · subst h; decide
    · subst h; decide
    · subst h; decide
  simp [notRp, hne]

theorem toFixed2_no_ws {x : JsNum} : ∀ c ∈ toFixed2 x, c.isWhitespace = false := by
  intro c hc
  rcases toFixed2_chars c hc with h | h | h | h | h
  · exact digit_not_ws h
  · subst h; decide
  · subst h; decide
  · subst h; decide
  · subst h; decide

theorem toFixed2_no_nl {x : JsNum} : '\n' ∉ toFixed2 x := by
  intro hm
  have := toFixed2_no_ws '\n' hm
  simp at this

theorem toFixed2_ne_nil {x : JsNum} : toFixed2 x ≠ [] := by
  rcases x with _ | q
  · simp [toFixed2]
  · simp only [toFixed2, fixed2]
    split
    · simp
    · rw [fixed2nn]
      intro he
      exact natToChars_ne_nil _ (List.append_eq_nil.mp he).1

theorem mem_intercalateSep {sep : List Char} {c : Char} :
    ∀ {ts : List (List Char)}, c ∈ intercalateSep sep ts → c ∈ sep ∨ ∃ t ∈ ts, c ∈ t := by
  intro ts
  induction ts with
  | nil => intro h; simp [intercalateSep] at h
  | cons x rest ih =>
    intro h
    rcases rest with _ | ⟨y, t2⟩
    · exact Or.inr ⟨x, by simp, h⟩
    · rw [intercalateSep] at h
      simp only [List.mem_append] at h
      rcases h with (h | h) | h
      · exact Or.inr ⟨x, by simp, h⟩
      · exact Or.inl h
      · rcases ih h with h2 | ⟨t, ht, hct⟩
        · exact Or.inl h2
        · exact Or.inr ⟨t, List.mem_cons_of_mem _ ht, hct⟩

theorem intercalateSep_ne_nil {sep : List Char} {ts : List (List Char)}
    (hts : ts ≠ []) (hall : ∀ t ∈ ts, t ≠ []) : intercalateSep sep ts ≠ [] := by
  rcases ts with _ | ⟨x, rest⟩
  · exact absurd rfl hts
  rcases rest with _ | ⟨y, t2⟩
  · exact hall x (by simp)
  · rw [intercalateSep]
    simp [hall x (by simp)]

theorem trimL_id_of_no_ws {l : List Char} (h : ∀ c ∈ l, c.isWhitespace = false) :
    trimL l = l := by
  rcases l with _ | ⟨c, t⟩
  · rfl
  · exact trimL_cons_neg _ (h c (by simp))

theorem trimR_id_of_no_ws {l : List Char} (h : ∀ c ∈ l, c.isWhitespace = false) :
    trimR l = l := by
  unfold trimR
  rw [trimL_id_of_no_ws (fun c hc => h c (List.mem_reverse.mp hc)), List.reverse_reverse]

theorem trimBoth_id_of_no_ws {l : List Char} (h : ∀ c ∈ l, c.isWhitespace = false) :
    trimBoth l = l := by
  rw [trimBoth, trimL_id_of_no_ws h, trimR_id_of_no_ws h]

theorem trimBoth_cons_space (l : List Char) : trimBoth (' ' :: l) = trimBoth l := by
  rw [trimBoth, trimBoth, trimL, trimL, List.dropWhile_cons]
  simp

theorem reparse_tok {x : JsNum} {q : Rat} (hx : x = JsNum.val q) (hden : (q * 100).den = 1) :
    jsParseFloat (trimBoth (toFixed2 x)) = x := by
  subst hx
  rw [trimBoth_id_of_no_ws toFixed2_no_ws]
  exact jsParseFloat_fixed2 hden

theorem reparse_tail (params : List JsNum)
    (hp : ∀ x ∈ params, ∃ q, x = JsNum.val q ∧ (q * 100).den = 1) :
    (params.map (fun y => ' ' :: toFixed2 y)).map
      (fun p => jsParseFloat (trimBoth p)) = params := by
  induction params with
  | nil => rfl
  | cons x rest ih =>
    obtain ⟨q, hxq, hden⟩ := hp x (by simp)
    simp only [List.map_cons, List.cons.injEq]
    constructor
    · rw [trimBoth_cons_space, reparse_tok hxq hden]
    · exact ih fun y hy => hp y (List.mem_cons_of_mem _ hy)

theorem reparse_all {params : List JsNum} (hne : params ≠ [])
    (hp : ∀ x ∈ params, ∃ q, x = JsNum.val q ∧ (q * 100).den = 1) :
    (splitOnChar ',' (intercalateSep [',', ' '] (params.map toFixed2))).map
      (fun p => jsParseFloat (trimBoth p)) = params := by
  rcases params with _ | ⟨x, rest⟩
  · exact absurd rfl hne
  obtain ⟨q, hxq, hden⟩ := hp x (by simp)
  rw [List.map_cons,
    splitOnChar_sep2 (rest.map toFixed2) (toFixed2 x)
      (by
        intro l hl hm
        rcases List.mem_map.mp hl with ⟨y, _, rfl⟩
        exact toFixed2_no_comma hm)
      toFixed2_no_comma]
  rw [List.map_cons, reparse_tok hxq hden]
  congr 1
  rw [List.map_map, List.map_map]
  have hres := reparse_tail rest fun y hy => hp y (List.mem_cons_of_mem _ hy)
  rw [List.map_map] at hres
  exact hres

theorem popLine_shape (n : Nat) (params : List JsNum) (hlen : params.length = 8)
    (color : List Char) :
    popLine { count := (n : Int), parameters := mkParams params color } =
      lineShape [] (natToChars n) [' '] [' ']
        (intercalateSep [',', ' '] (params.map toFixed2)) [] := by
  rw [popLine, lineShape, paramFields_mkParams hlen, intToChars_natCast]
  simp

theorem parseLine_popLine (n : Nat) {params : List JsNum} (hlen : params.length = 8)
    (hp : ∀ x ∈ params, ∃ q, x = JsNum.val q ∧ (q * 100).den = 1) (color : List Char) :
    parseLine (popLine { count := (n : Int), parameters := mkParams params color }) =
      some (n, params) := by
  have hne : params ≠ [] := by
    intro he
    rw [he] at hlen
    simp at hlen
  have hinerne : intercalateSep [',', ' '] (params.map toFixed2) ≠ [] :=
    intercalateSep_ne_nil (by simpa using hne)
      (by
        intro t ht
        rcases List.mem_map.mp ht with ⟨y, _, rfl⟩
        exact toFixed2_ne_nil)
  have hinnotRp : ∀ c ∈ intercalateSep [',', ' '] (params.map toFixed2), notRp c = true := by
    intro c hc
    rcases mem_intercalateSep hc with hsep | ⟨t, ht, hct⟩
    · fin_cases hsep <;> decide
    · rcases List.mem_map.mp ht with ⟨y, _, rfl⟩
      exact toFixed2_no_rp c hct
  rw [popLine_shape n params hlen color, parseLine,
    findMatch_shape _ _ _ _ _ _ (by simp) (natToChars_ne_nil n) (natToChars_digits n)
      (by intro c hc; fin_cases hc; decide)
      (by intro c hc; fin_cases hc; decide)
      hinerne hinnotRp]
  dsimp only []
  rw [if_pos (by
      rw [List.length_map]
      have h2 := congrArg List.length (reparse_all hne hp)
      rw [List.length_map] at h2
      omega),
    reparse_all hne hp, digitsToNat_natToChars]

/-! ## Splitting a joined text back into its lines -/

theorem trimL_ne_of_trimBoth {l : List Char} (h : trimBoth l ≠ []) : trimL l ≠ [] := by
  intro he
  apply h
  rw [trimBoth, he]
  rfl

theorem trimR_ne_of_trimBoth {l : List Char} (h : trimBoth l ≠ []) : trimR l ≠ [] := by
  intro he
  apply h
  have hall : ∀ c ∈ l, c.isWhitespace = true := by
    intro c hc
    have h2 := trimR_eq_nil_rev he
    rw [trimL] at h2
    exact dropWhile_eq_nil_iff_all.mp h2 c (List.mem_reverse.mpr hc)
  rw [trimBoth, trimL_all hall]
  rfl

theorem trimLastR_length : ∀ ls : List (List Char), (trimLastR ls).length = ls.length
  | [] => rfl
  | [_] => rfl
  | x :: y :: t => by
    rw [trimLastR]
    simp only [List.length_cons]
    rw [trimLastR_length (y :: t)]
    simp

theorem edgeTrim_length (ls : List (List Char)) : (edgeTrim ls).length = ls.length := by
  rcases ls with _ | ⟨x, xs⟩
  · rfl
  · rw [edgeTrim, trimLastR_length]
    rfl

theorem intercalateChars_cons2 (c : Char) (x y : List Char) (t : List (List Char)) :
    intercalateChars c (x :: y :: t) = x ++ c :: intercalateChars c (y :: t) := rfl

theorem trimLastR_ne_nil {ls : List (List Char)} (hne : ls ≠ []) : trimLastR ls ≠ [] := by
  intro he
  have hlen := trimLastR_length ls
  rw [he] at hlen
  rcases ls with _ | ⟨x, t⟩
  · exact hne rfl
  · simp at hlen

theorem mem_ic_of_mem {c' : Char} :
    ∀ {ls : List (List Char)} {l : List Char}, l ∈ ls →
      ∀ {x : Char}, x ∈ l → x ∈ intercalateChars c' ls := by
  intro ls
  induction ls with
  | nil => intro l hl; simp at hl
  | cons a rest ih =>
    intro l hl x hx
    rcases rest with _ | ⟨y, t⟩
    · rcases List.mem_singleton.mp hl with rfl
      exact hx
    · rw [intercalateChars_cons2]
      rcases List.mem_cons.mp hl with rfl | hl2
      · exact List.mem_append.mpr (Or.inl hx)
      · exact List.mem_append.mpr (Or.inr (List.mem_cons_of_mem _ (ih hl2 hx)))

theorem trimR_eq_nil_all {l : List Char} (h : trimR l = []) :
    ∀ c ∈ l, c.isWhitespace = true := by
  intro c hc
  have h2 := trimR_eq_nil_rev h
  rw [trimL] at h2
  exact dropWhile_eq_nil_iff_all.mp h2 c (List.mem_reverse.mpr hc)

theorem trimR_intercalate :
    ∀ ls : List (List Char), ls ≠ [] → (∀ l ∈ ls, trimR l ≠ []) →
      trimR (intercalateChars '\n' ls) = intercalateChars '\n' (trimLastR ls)
  | [], hne, _ => absurd rfl hne
  | [x], _, _ => by rw [intercalateChars, trimLastR, intercalateChars]
  | x :: y :: t, _, hall => by
    have ih := trimR_intercalate (y :: t) (by simp)
      (fun l hl => hall l (List.mem_cons_of_mem _ hl))
    have hyne := hall y (by simp)
    have hZne : trimR (intercalateChars '\n' (y :: t)) ≠ [] := by
      intro he
      apply hyne
      apply trimR_all
      intro cc hcc
      exact trimR_eq_nil_all he cc (mem_ic_of_mem (by simp) hcc)
    have hNZne : trimR ('\n' :: intercalateChars '\n' (y :: t)) ≠ [] := by
      intro he
      apply hyne
      apply trimR_all
      intro cc hcc
      exact trimR_eq_nil_all he cc
        (List.mem_cons_of_mem _ (mem_ic_of_mem (by simp) hcc))
    have hsplit : trimR ('\n' :: intercalateChars '\n' (y :: t)) =
        '\n' :: trimR (intercalateChars '\n' (y :: t)) := by
      have h2 := @trimR_append_of_ne (intercalateChars '\n' (y :: t)) ['\n'] hZne
      simpa using h2
    obtain ⟨w, ws, hw⟩ : ∃ w ws, trimLastR (y :: t) = w :: ws := by
      rcases hx2 : trimLastR (y :: t) with _ | ⟨w, ws⟩
      · exact absurd hx2 (trimLastR_ne_nil (by simp))
      · exact ⟨w, ws, rfl⟩
    rw [intercalateChars_cons2, trimR_append_of_ne _ hNZne, hsplit, ih,
      show trimLastR (x :: y :: t) = x :: trimLastR (y :: t) from rfl, hw,
      intercalateChars_cons2]

theorem trimBoth_intercalate {ls : List (List Char)} (hne : ls ≠ [])
    (hallB : ∀ l ∈ ls, trimBoth l ≠ []) :
    trimBoth (intercalateChars '\n' ls) = intercalateChars '\n' (edgeTrim ls) := by
  rcases ls with _ | ⟨x, rest⟩
  · exact absurd rfl hne
  have hxB := hallB x (by simp)
  have hxL : trimL x ≠ [] := trimL_ne_of_trimBoth hxB
  rcases rest with _ | ⟨y, t⟩
  · rw [show edgeTrim [x] = [trimR (trimL x)] from rfl, intercalateChars,
      intercalateChars]
    rfl
  · have hstep : trimL (intercalateChars '\n' (x :: y :: t)) =
        intercalateChars '\n' (trimL x :: y :: t) := by
      rw [intercalateChars_cons2, trimL_append_of_ne _ hxL, intercalateChars_cons2]
    rw [trimBoth, hstep, trimR_intercalate (trimL x :: y :: t) (by simp)]
    · rfl
    · intro l hl
      rcases List.mem_cons.mp hl with rfl | hl2
      · intro he
        apply hxB
        rw [trimBoth, he]
      · exact trimR_ne_of_trimBoth (hallB l (List.mem_cons_of_mem _ hl2))

theorem trimLastR_mem_chars {P : Char → Prop} :
    ∀ {ls : List (List Char)}, (∀ l ∈ ls, ∀ c ∈ l, P c) →
      ∀ l ∈ trimLastR ls, ∀ c ∈ l, P c := by
  intro ls
  induction ls with
  | nil => intro _ l hl; simp [trimLastR] at hl
  | cons x rest ih =>
    intro h l hl c hc
    rcases rest with _ | ⟨y, t⟩
    · rw [trimLastR] at hl
      rcases List.mem_singleton.mp hl with rfl
      exact h x (by simp) c (mem_trimR c hc)
    · rw [trimLastR] at hl
      rcases List.mem_cons.mp hl with rfl | hl2
      · exact h l (by simp) c hc
      · exact ih (fun l2 hl2b => h l2 (List.mem_cons_of_mem _ hl2b)) l hl2 c hc

theorem edgeTrim_mem_chars {P : Char → Prop} {ls : List (List Char)}
    (h : ∀ l ∈ ls, ∀ c ∈ l, P c) : ∀ l ∈ edgeTrim ls, ∀ c ∈ l, P c := by
  rcases ls with _ | ⟨x, xs⟩
  · intro l hl; simp [edgeTrim] at hl
  · rw [edgeTrim]
    apply trimLastR_mem_chars
    intro l hl c hc
    rcases List.mem_cons.mp hl with rfl | hl2
    · exact h x (by simp) c (mem_trimL c hc)
    · exact h l (List.mem_cons_of_mem _ hl2) c hc

theorem linesOf_intercalate {ls : List (List Char)} (hne : ls ≠ [])
    (hnl : ∀ l ∈ ls, '\n' ∉ l)
    (hallB : ∀ l ∈ ls, trimBoth l ≠ [])
    (hkeep : ∀ l ∈ edgeTrim ls, trimBoth l ≠ []) :
    linesOf (intercalateChars '\n' ls) = edgeTrim ls := by
  rw [linesOf, trimBoth_intercalate hne hallB,
    splitOnChar_intercalate (edgeTrim ls)
      (by
        intro he
        have hlen := edgeTrim_length ls
        rw [he] at hlen
        rcases ls with _ | ⟨x, t⟩
        · exact hne rfl
        · simp at hlen)
      (by
        intro l hl hm
        exact edgeTrim_mem_chars (P := fun c => c ≠ '\n')
          (fun l2 hl2 c hc he => hnl l2 hl2 (he ▸ hc)) l hl '\n' hm rfl)]
  rw [List.filter_eq_self.mpr]
  intro a ha
  simpa using hkeep a ha

theorem trimLastR_id {ls : List (List Char)} (h : ∀ l ∈ ls, trimR l = l) :
    trimLastR ls = ls := by
  induction ls with
  | nil => rfl
  | cons x rest ih =>
    rcases rest with _ | ⟨y, t⟩
    · rw [trimLastR, h x (by simp)]
    · rw [trimLastR, ih fun l hl => h l (List.mem_cons_of_mem _ hl)]

theorem edgeTrim_id {ls : List (List Char)} (hL : ∀ l ∈ ls, trimL l = l)
    (hR : ∀ l ∈ ls, trimR l = l) : edgeTrim ls = ls := by
  rcases ls with _ | ⟨x, xs⟩
  · rfl
  · rw [edgeTrim, hL x (by simp), trimLastR_id]
    intro l hl
    exact hR l hl

/-! ## Well-formed lines under edge trimming -/

theorem wf_trimL {l : List Char} (h : wfLine2dp l = true) :
    wfLine2dp (trimL l) = true := by
  obtain ⟨d, inner, hsp, hlen, htok⟩ := wf_elim h
  unfold wfLine2dp
  rw [specLineParse_trimL hsp]
  simp only [Bool.and_eq_true, decide_eq_true_eq, List.all_eq_true]
  exact ⟨hlen, htok⟩

theorem wf_trimR {l : List Char} (h : wfLine2dp l = true) :
    wfLine2dp (trimR l) = true := by
  obtain ⟨d, inner, hsp, hlen, htok⟩ := wf_elim h
  unfold wfLine2dp
  rw [specLineParse_trimR hsp]
  simp only [Bool.and_eq_true, decide_eq_true_eq, List.all_eq_true]
  exact ⟨hlen, htok⟩

theorem wf_trimBoth_ne {l : List Char} (h : wfLine2dp l = true) : trimBoth l ≠ [] := by
  obtain ⟨d, inner, hsp, _, _⟩ := wf_elim h
  exact trimBoth_ne_nil_of_spec hsp

theorem trimLastR_wf : ∀ {ls : List (List Char)}, (∀ l ∈ ls, wfLine2dp l = true) →
    ∀ l ∈ trimLastR ls, wfLine2dp l = true := by
  intro ls
  induction ls with
  | nil => intro _ l hl; simp [trimLastR] at hl
  | cons x rest ih =>
    intro h l hl
    rcases rest with _ | ⟨y, t⟩
    · rw [trimLastR] at hl
      rcases List.mem_singleton.mp hl with rfl
      exact wf_trimR (h x (by simp))
    · rw [trimLastR] at hl
      rcases List.mem_cons.mp hl with rfl | hl2
      · exact h l (by simp)
      · exact ih (fun l2 hl2b => h l2 (List.mem_cons_of_mem _ hl2b)) l hl2

theorem edgeTrim_wf {ls : List (List Char)} (h : ∀ l ∈ ls, wfLine2dp l = true) :
    ∀ l ∈ edgeTrim ls, wfLine2dp l = true := by
  rcases ls with _ | ⟨x, xs⟩
  · intro l hl; simp [edgeTrim] at hl
  · rw [edgeTrim]
    apply trimLastR_wf
    intro l hl
    rcases List.mem_cons.mp hl with rfl | hl2
    · exact wf_trimL (h x (by simp))
    · exact h l (List.mem_cons_of_mem _ hl2)

theorem trimLastR_map_parseLine : ∀ {ls : List (List Char)},
    (∀ l ∈ ls, wfLine2dp l = true) →
      (trimLastR ls).map parseLine = ls.map parseLine := by
  intro ls
  induction ls with
  | nil => intro _; rfl
  | cons x rest ih =>
    intro h
    rcases rest with _ | ⟨y, t⟩
    · obtain ⟨d, inner, hsp, _, _⟩ := wf_elim (h x (by simp))
      rw [trimLastR]
      simp only [List.map_cons, List.map_nil]
      rw [parseLine_trimR_of_spec hsp]
    · rw [trimLastR]
      simp only [List.map_cons]
      rw [ih fun l2 hl2 => h l2 (List.mem_cons_of_mem _ hl2)]
      simp

theorem edgeTrim_map_parseLine {ls : List (List Char)}
    (h : ∀ l ∈ ls, wfLine2dp l = true) :
    (edgeTrim ls).map parseLine = ls.map parseLine := by
  rcases ls with _ | ⟨x, xs⟩
  · rfl
  · rw [edgeTrim, trimLastR_map_parseLine]
    · obtain ⟨d, inner, hsp, _, _⟩ := wf_elim (h x (by simp))
      simp only [List.map_cons]
      rw [parseLine_trimL_of_spec hsp]
    · intro l hl
      rcases List.mem_cons.mp hl with rfl | hl2
      · exact wf_trimL (h x (by simp))
      · exact h l (List.mem_cons_of_mem _ hl2)

/-! ## The parser/serializer round trip, line by line -/

theorem parseLine_some_of_wf {l : List Char} (h : wfLine2dp l = true) :
    ∃ cp : Nat × List JsNum, parseLine l = some cp ∧ cp.2.length = 8 ∧
      ∀ x ∈ cp.2, ∃ q, x = JsNum.val q ∧ (q * 100).den = 1 := by
  obtain ⟨d, inner, hsp, hlen, htok⟩ := wf_elim h
  rw [parseLine_of_spec hsp, if_pos (by rw [List.length_map]; exact hlen)]
  refine ⟨(digitsToNat d, (splitOnChar ',' inner).map (fun p => jsParseFloat (trimBoth p))),
    rfl, by simp [hlen], ?_⟩
  intro x hx
  rcases List.mem_map.mp hx with ⟨t, ht, rfl⟩
  exact twoDec_elim (htok t ht)

theorem popLine_trims (n : Nat) {params : List JsNum} (hlen : params.length = 8)
    (color : List Char) :
    trimL (popLine { count := (n : Int), parameters := mkParams params color }) =
      popLine { count := (n : Int), parameters := mkParams params color } ∧
    trimR (popLine { count := (n : Int), parameters := mkParams params color }) =
      popLine { count := (n : Int), parameters := mkParams params color } ∧
    '\n' ∉ popLine { count := (n : Int), parameters := mkParams params color } ∧
    trimBoth (popLine { count := (n : Int), parameters := mkParams params color }) ≠ [] := by
  rw [popLine_shape n params hlen color]
  have hL : trimL (lineShape [] (natToChars n) [' '] [' ']
      (intercalateSep [',', ' '] (params.map toFixed2)) []) =
      lineShape [] (natToChars n) [' '] [' ']
        (intercalateSep [',', ' '] (params.map toFixed2)) [] :=
    trimL_lineShape (by simp) (natToChars_ne_nil n) (natToChars_digits n)
  have hR : trimR (lineShape [] (natToChars n) [' '] [' ']
      (intercalateSep [',', ' '] (params.map toFixed2)) []) =
      lineShape [] (natToChars n) [' '] [' ']
        (intercalateSep [',', ' '] (params.map toFixed2)) [] :=
    trimR_lineShape (by simp)
  have hnl : '\n' ∉ lineShape [] (natToChars n) [' '] [' ']
      (intercalateSep [',', ' '] (params.map toFixed2)) [] := by
    intro hm
    simp only [lineShape, List.nil_append, List.mem_append, List.mem_cons,
      List.mem_singleton] at hm
    rcases hm with hm | hm | hm | hm | hm
    · have := natToChars_digits n '\n' hm
      simp at this
    · simp at hm
    · simp at hm
    · simp at hm
    · rcases hm with hm | hm
      · simp at hm
      · rcases hm with hm | hm
        · rcases mem_intercalateSep hm with hs | ⟨t, ht, hct⟩
          · simp at hs
          · rcases List.mem_map.mp ht with ⟨y, _, rfl⟩
            exact toFixed2_no_nl hct
        · rcases hm with hm | hm
          · simp at hm
          · simp at hm
  have hne : lineShape [] (natToChars n) [' '] [' ']
      (intercalateSep [',', ' '] (params.map toFixed2)) [] ≠ [] := by
    simp only [lineShape, List.nil_append]
    intro he
    exact natToChars_ne_nil n (List.append_eq_nil.mp he).1
  refine ⟨hL, hR, hnl, ?_⟩
  rw [trimBoth, hL, hR]
  exact hne

theorem parseLoop_roundtrip (gen : Nat → Rat × Rat × Rat) :
    ∀ (lines : List (List Char)) (i : Nat), (∀ l ∈ lines, wfLine2dp l = true) →
      ((parseLoop gen i lines).1.map (fun p => parseLine (popLine p))) =
        lines.map parseLine ∧
      ∀ p ∈ (parseLoop gen i lines).1,
        trimL (popLine p) = popLine p ∧ trimR (popLine p) = popLine p ∧
        '\n' ∉ popLine p ∧ trimBoth (popLine p) ≠ [] := by
  intro lines
  induction lines with
  | nil =>
    intro i _
    exact ⟨rfl, by intro p hp; simp [parseLoop] at hp⟩
  | cons l rest ih =>
    intro i h
    obtain ⟨cp, hcp, hlen8, hvals⟩ := parseLine_some_of_wf (h l (by simp))
    obtain ⟨ihm, ihf⟩ := ih (i + 1) (fun l2 hl2 => h l2 (List.mem_cons_of_mem _ hl2))
    rw [parseLoop, hcp]
    constructor
    · simp only [List.map_cons]
      rw [ihm, parseLine_popLine cp.1 hlen8 hvals (generateRandomColor3 (gen i)), ← hcp]
    · intro p hp
      rcases List.mem_cons.mp hp with rfl | hp2
      · exact popLine_trims cp.1 hlen8 (generateRandomColor3 (gen i))
      · exact ihf p hp2

/-! ## Retention store -/

theorem insertCap_eq_take (cap : Nat) (r : α) (s : List α) :
    insertCap cap r s = (r :: s).take cap := by
  rw [insertCap]
  split
  · rfl
  · next h =>
    exact (List.take_of_length_le (by omega)).symm

theorem length_insertCap_le (cap : Nat) (r : α) (s : List α) (_h : s.length ≤ cap) :
    (insertCap cap r s).length ≤ cap := by
  rw [insertCap_eq_take, List.length_take]
  omega

theorem take_append_take (cap : Nat) (A B : List α) :
    (A ++ B.take cap).take cap = (A ++ B).take cap := by
  rw [List.take_append_eq_append_take, List.take_append_eq_append_take, List.take_take]
  congr 1
  congr 1
  omega

theorem foldl_insertCap (cap : Nat) :
    ∀ (recs : List α) (s : List α), s.length ≤ cap →
      recs.foldl (fun st r => insertCap cap r st) s = (recs.reverse ++ s).take cap := by
  intro recs
  induction recs with
  | nil =>
    intro s h
    exact (List.take_of_length_le (by simpa using h)).symm
  | cons r rest ih =>
    intro s h
    rw [List.foldl_cons, ih (insertCap cap r s) (length_insertCap_le cap r s h),
      insertCap_eq_take, take_append_take, List.reverse_cons, List.append_assoc]
    rfl

theorem ingestSeq_eq (cap : Nat) (recs : List α) :
    ingestSeq cap recs = recs.reverse.take cap := by
  rw [ingestSeq, foldl_insertCap cap recs [] (by simp), List.append_nil]

theorem mem_insertCap {cap : Nat} {r x : α} {s : List α}
    (h : x ∈ insertCap cap r s) : x = r ∨ x ∈ s := by
  rw [insertCap_eq_take] at h
  exact List.mem_cons.mp (List.take_subset _ _ h)

/-! ## The POST handler -/

theorem postSwarmData_snd (c : IngestCtx) (s : List SwarmRecord) :
    (postSwarmData c s).2 =
      insertCap MAX_STORED_DATA (stampRecord c.stamp (ingestRecord c)) s := by
  rw [postSwarmData, ingestRecord]
  rcases c.body with t | j
  · dsimp only []
    split <;> rfl
  · dsimp only []
    split <;> rfl

theorem stampRecord_populations (st : Stamp) (r : SwarmRecord) :
    (stampRecord st r).populations = r.populations := rfl

theorem stampRecord_total (st : Stamp) (r : SwarmRecord) :
    (stampRecord st r).totalIndividuals = r.totalIndividuals := rfl

theorem stampRecord_invariant (st : Stamp) {r : SwarmRecord} (h : invariantOK r) :
    invariantOK (stampRecord st r) := by
  unfold invariantOK at *
  rw [stampRecord_populations, stampRecord_total]
  exact h

theorem parseStandardFormat_populations (gen : Nat → Rat × Rat × Rat)
    (sid ts t : List Char) :
    (parseStandardFormat gen sid ts t).populations =
      some (parseLoop gen 0 (linesOf t)).1 := rfl

theorem parseStandardFormat_total (gen : Nat → Rat × Rat × Rat) (sid ts t : List Char) :
    (parseStandardFormat gen sid ts t).totalIndividuals =
      sumCounts (parseLoop gen 0 (linesOf t)).1 :=
  parseLoop_total_eq gen (linesOf t) 0

theorem parse_invariantOK (gen : Nat → Rat × Rat × Rat) (sid ts t : List Char) :
    invariantOK (parseStandardFormat gen sid ts t) := by
  unfold invariantOK
  rw [parseStandardFormat_populations]
  exact parseStandardFormat_total gen sid ts t

theorem ingestRecord_invariant {c : IngestCtx} (h : bodyOK c) :
    invariantOK (ingestRecord c) := by
  unfold bodyOK at h
  unfold ingestRecord
  rcases hcb : c.body with t | j
  · exact parse_invariantOK _ _ _ _
  · rw [hcb] at h
    exact h

theorem postSwarmData_invariant {c : IngestCtx} {s : List SwarmRecord}
    (hb : bodyOK c) (hs : ∀ r ∈ s, invariantOK r) :
    ∀ r ∈ (postSwarmData c s).2, invariantOK r := by
  intro r hr
  rw [postSwarmData_snd] at hr
  rcases mem_insertCap hr with rfl | hr2
  · exact stampRecord_invariant _ (ingestRecord_invariant hb)
  · exact hs r hr2

theorem runIngests_invariant :
    ∀ (cs : List IngestCtx) (s : List SwarmRecord), (∀ c ∈ cs, bodyOK c) →
      (∀ r ∈ s, invariantOK r) → ∀ r ∈ runIngests cs s, invariantOK r := by
  intro cs
  induction cs with
  | nil => intro s _ hs; exact hs
  | cons c rest ih =>
    intro s hb hs
    rw [runIngests, List.foldl_cons]
    exact ih (postSwarmData c s).2 (fun c2 hc2 => hb c2 (List.mem_cons_of_mem _ hc2))
      (postSwarmData_invariant (hb c (by simp)) hs)

/-! ## Colour shape -/

theorem generateRandomColor_shape (r1 r2 r3 : Rat)
    (h1 : 0 ≤ r1 ∧ r1 < 1) (h2 : 0 ≤ r2 ∧ r2 < 1) (h3 : 0 ≤ r3 ∧ r3 < 1) :
    ∃ h s l, generateRandomColor r1 r2 r3 = hslString h s l ∧
      0 ≤ h ∧ h < 360 ∧ 60 ≤ s ∧ s ≤ 100 ∧ 50 ≤ l ∧ l ≤ 80 := by
  refine ⟨⌊r1 * 360⌋, ⌊r2 * 40⌋ + 60, ⌊r3 * 30⌋ + 50, rfl, ?_, ?_, ?_, ?_, ?_, ?_⟩
  · exact Int.floor_nonneg.mpr (by nlinarith [h1.1])
  · exact Int.floor_lt.mpr (by push_cast; nlinarith [h1.2])
  · have hb : (0 : Int) ≤ ⌊r2 * 40⌋ := Int.floor_nonneg.mpr (by nlinarith [h2.1])
    omega
  · have hb : ⌊r2 * 40⌋ < 40 := Int.floor_lt.mpr (by push_cast; nlinarith [h2.2])
    omega
  · have hb : (0 : Int) ≤ ⌊r3 * 30⌋ := Int.floor_nonneg.mpr (by nlinarith [h3.1])
    omega
  · have hb : ⌊r3 * 30⌋ < 30 := Int.floor_lt.mpr (by push_cast; nlinarith [h3.2])
    omega

theorem parseLoop_mem_shape (gen : Nat → Rat × Rat × Rat) :
    ∀ (ls : List (List Char)) (i : Nat) (p : Population),
      p ∈ (parseLoop gen i ls).1 →
      ∃ (c : Nat) (params : List JsNum) (idx : Nat),
        p = { count := (c : Int),
              parameters := mkParams params (generateRandomColor3 (gen idx)) } := by
  intro ls
  induction ls with
  | nil => intro i p hp; simp [parseLoop] at hp
  | cons l rest ih =>
    intro i p hp
    rw [parseLoop] at hp
    rcases hcl : parseLine l with _ | cp
    · rw [hcl] at hp
      exact ih i p hp
    · rw [hcl] at hp
      dsimp only [] at hp
      rcases List.mem_cons.mp hp with rfl | hp2
      · exact ⟨cp.1, cp.2, i, rfl⟩
      · exact ih (i + 1) p hp2

/-! # Claims -/

/-- C1: the claim states that ingesting a structured payload without a
`populations` field fails and leaves the store unchanged.  The failure half
holds, but the store half does not: the handler `unshift`s the stamped
payload *before* the logging line that throws, so from the empty store the
call answers the 500 failure response **and** the store has grown to one
record (the stamped malformed payload).  This theorem evaluates the embedded
handler at that failing input. -/
theorem C1_failure_still_mutates_store :
    (postSwarmData ctxNoPops []).1 = PostResp.err ∧
    (postSwarmData ctxNoPops []).2 =
      [stampRecord stamp0 noPopsJson] ∧
    ((postSwarmData ctxNoPops []).2).length = 1 := by
  refine ⟨rfl, ?_, rfl⟩
  rfl

/-- C2 (counterexample): the claimed invariant
`totalIndividuals = sum of population counts` fails on the code: the
structured path stores the submitter's payload without any validation, so
ingesting `badTotalJson` (counts summing to 2, `totalIndividuals` 7) into
the empty store produces a store whose single record violates the
invariant. -/
theorem C2_counterexample_structured_total_mismatch :
    ¬ ∀ r ∈ (postSwarmData ctxBadTotal []).2, invariantOK r := by
  decide

/-- C2 (amended): the invariant `totalIndividuals = sum of population
counts` holds for every stored record after any sequence of ingest calls,
provided every structured payload in the sequence already satisfies it
(text-path records satisfy it unconditionally, since the parser computes the
total as the running sum of parsed counts) and the starting store satisfies
it. -/
theorem C2_amended_invariant (cs : List IngestCtx) (s : List SwarmRecord)
    (hb : ∀ c ∈ cs, bodyOK c) (hs : ∀ r ∈ s, invariantOK r) :
    ∀ r ∈ runIngests cs s, invariantOK r :=
  runIngests_invariant cs s hb hs

/-- C2 (witness): the amended invariant applied to a concrete two-call
sequence (one text ingest, one consistent structured ingest) from the empty
store. -/
theorem C2_amended_invariant_witness :
    (∀ c ∈ [ctxText1, ctxGood], bodyOK c) ∧
    (∀ r ∈ ([] : List SwarmRecord), invariantOK r) ∧
    (∀ r ∈ runIngests [ctxText1, ctxGood] [], invariantOK r) :=
  ⟨by decide, by decide, C2_amended_invariant [ctxText1, ctxGood] [] (by decide) (by decide)⟩

/-- C3: inserting `N` records (oldest first) into an empty store of capacity
`C` through the source's `unshift` + `slice(0, C)` retention leaves exactly
`min(N, C)` records, namely the most recently inserted ones in reverse
insertion order (the new record lands at position 0, and the earliest
records are the evicted ones once `N > C`). -/
theorem C3_retention_window (C : Nat) (recs : List SwarmRecord) :
    ingestSeq C recs = recs.reverse.take C ∧
    (ingestSeq C recs).length = min recs.length C := by
  refine ⟨ingestSeq_eq C recs, ?_⟩
  rw [ingestSeq_eq C recs, List.length_take, List.length_reverse]
  omega

/-- C4 (counterexample): the claim says a line produces a population exactly
when it matches the *anchored* pattern `^\s*(\d+)\s*\*\s*\(([^)]+)\)\s*$`
with 8 numeric tokens.  The source regex is unanchored, so the line
`x1 * (1, 2, 3, 4, 5, 6, 7, 8)` — which fails the anchored pattern because
of the leading `x` — still produces one population (the regex matches the
substring starting at `1`). -/
theorem C4_counterexample_unanchored :
    ((parseStandardFormat gen0 "s".toList "t".toList
        "x1 * (1, 2, 3, 4, 5, 6, 7, 8)".toList).populations.map List.length) = some 1 ∧
    ((linesOf "x1 * (1, 2, 3, 4, 5, 6, 7, 8)".toList).filter specConformingLine).length
      = 0 := by
  constructor
  · decide
  · decide

/-- C4 (amended): a line of a text payload produces a population exactly
when the *unanchored* source regex `(\d+)\s*\*\s*\(([^)]+)\)` finds a first
match in the line and the parenthesized group splits on commas into exactly
8 tokens (numeric or not — non-numeric tokens are stored as `NaN`); every
other line is skipped, so the parsed populations' counts and field values
are precisely those of the accepted lines, in order. -/
theorem C4_amended_populations (gen : Nat → Rat × Rat × Rat) (sid ts t : List Char) :
    ∃ ps, (parseStandardFormat gen sid ts t).populations = some ps ∧
      ps.map popData =
        ((linesOf t).filterMap parseLine).map (fun cp => ((cp.1 : Int), cp.2)) :=
  ⟨(parseLoop gen 0 (linesOf t)).1, parseStandardFormat_populations gen sid ts t,
    parseLoop_map_popData gen (linesOf t) 0⟩

/-- C5: round trip.  For a DSL text `T` assembled from well-formed lines
whose eight numeric fields are exact multiples of `1/100` ("already rounded
to two decimals"), `convertToStandardFormat (parseStandardFormat T)` is
numerically equal to `T`: it has the same number of lines, and reading each
line back (count and the eight values, via `parseLine`) gives exactly the
per-line data of `T`, in order. -/
theorem C5_roundtrip (gen : Nat → Rat × Rat × Rat) (sid ts : List Char)
    (ls : List (List Char)) (hwf : ∀ l ∈ ls, wfLine2dp l = true)
    (hnl : ∀ l ∈ ls, '\n' ∉ l) :
    (linesOf (convertToStandardFormat (parseStandardFormat gen sid ts
      (intercalateChars '\n' ls)))).map parseLine = ls.map parseLine ∧
    (linesOf (convertToStandardFormat (parseStandardFormat gen sid ts
      (intercalateChars '\n' ls)))).length = ls.length := by
  rcases ls with _ | ⟨l0, rest⟩
  · exact ⟨rfl, rfl⟩
  have hedge : linesOf (intercalateChars '\n' (l0 :: rest)) = edgeTrim (l0 :: rest) :=
    linesOf_intercalate (by simp) hnl
      (fun l hl => wf_trimBoth_ne (hwf l hl))
      (fun l hl => wf_trimBoth_ne (edgeTrim_wf hwf l hl))
  have hconv : convertToStandardFormat (parseStandardFormat gen sid ts
      (intercalateChars '\n' (l0 :: rest))) =
      intercalateChars '\n'
        ((parseLoop gen 0 (linesOf (intercalateChars '\n' (l0 :: rest)))).1.map popLine) :=
    rfl
  obtain ⟨hrt, hfacts⟩ :=
    parseLoop_roundtrip gen (edgeTrim (l0 :: rest)) 0 (edgeTrim_wf hwf)
  have hlenp : (parseLoop gen 0 (edgeTrim (l0 :: rest))).1.length = (l0 :: rest).length := by
    have hl2 := congrArg List.length hrt
    rw [List.length_map, List.length_map] at hl2
    rw [hl2, edgeTrim_length]
  have hpne : (parseLoop gen 0 (edgeTrim (l0 :: rest))).1.map popLine ≠ [] := by
    intro he
    have := congrArg List.length he
    rw [List.length_map, hlenp] at this
    simp at this
  have hlines2 : linesOf (intercalateChars '\n'
      ((parseLoop gen 0 (edgeTrim (l0 :: rest))).1.map popLine)) =
      (parseLoop gen 0 (edgeTrim (l0 :: rest))).1.map popLine := by
    rw [linesOf_intercalate hpne
      (by
        intro l hl
        rcases List.mem_map.mp hl with ⟨p, hp, rfl⟩
        exact (hfacts p hp).2.2.1)
      (by
        intro l hl
        rcases List.mem_map.mp hl with ⟨p, hp, rfl⟩
        exact (hfacts p hp).2.2.2)
      ?_]
    · rw [edgeTrim_id
        (by
          intro l hl
          rcases List.mem_map.mp hl with ⟨p, hp, rfl⟩
          exact (hfacts p hp).1)
        (by
          intro l hl
          rcases List.mem_map.mp hl with ⟨p, hp, rfl⟩
          exact (hfacts p hp).2.1)]
    · rw [edgeTrim_id
        (by
          intro l hl
          rcases List.mem_map.mp hl with ⟨p, hp, rfl⟩
          exact (hfacts p hp).1)
        (by
          intro l hl
          rcases List.mem_map.mp hl with ⟨p, hp, rfl⟩
          exact (hfacts p hp).2.1)]
      intro l hl
      rcases List.mem_map.mp hl with ⟨p, hp, rfl⟩
      exact (hfacts p hp).2.2.2
  have hmain : (linesOf (convertToStandardFormat (parseStandardFormat gen sid ts
      (intercalateChars '\n' (l0 :: rest))))).map parseLine =
      (l0 :: rest).map parseLine := by
    rw [hconv, hedge, hlines2, List.map_map]
    have hrt2 : (parseLoop gen 0 (edgeTrim (l0 :: rest))).1.map (parseLine ∘ popLine) =
        (edgeTrim (l0 :: rest)).map parseLine := hrt
    rw [hrt2, edgeTrim_map_parseLine hwf]
  refine ⟨hmain, ?_⟩
  have := congrArg List.length hmain
  rw [List.length_map, List.length_map] at this
  exact this

/-- C5 (witness): the round trip applied to a concrete two-line DSL text
with two-decimal values. -/
theorem C5_roundtrip_witness :
    (∀ l ∈ ["2 * (10.00, 1.00, 2.00, 0.50, 0.50, 0.50, 0.10, 0.90)".toList,
            "102 * (293.86, 17.06, 38.30, 0.81, 0.05, 0.83, 0.20, 0.90)".toList],
      wfLine2dp l = true) ∧
    (∀ l ∈ ["2 * (10.00, 1.00, 2.00, 0.50, 0.50, 0.50, 0.10, 0.90)".toList,
            "102 * (293.86, 17.06, 38.30, 0.81, 0.05, 0.83, 0.20, 0.90)".toList],
      '\n' ∉ l) ∧
    ((linesOf (convertToStandardFormat (parseStandardFormat gen0 "s".toList "t".toList
      (intercalateChars '\n'
        ["2 * (10.00, 1.00, 2.00, 0.50, 0.50, 0.50, 0.10, 0.90)".toList,
         "102 * (293.86, 17.06, 38.30, 0.81, 0.05, 0.83, 0.20, 0.90)".toList])))).map parseLine =
      ["2 * (10.00, 1.00, 2.00, 0.50, 0.50, 0.50, 0.10, 0.90)".toList,
       "102 * (293.86, 17.06, 38.30, 0.81, 0.05, 0.83, 0.20, 0.90)".toList].map parseLine ∧
     (linesOf (convertToStandardFormat (parseStandardFormat gen0 "s".toList "t".toList
      (intercalateChars '\n'
        ["2 * (10.00, 1.00, 2.00, 0.50, 0.50, 0.50, 0.10, 0.90)".toList,
         "102 * (293.86, 17.06, 38.30, 0.81, 0.05, 0.83, 0.20, 0.90)".toList])))).length = 2) :=
  ⟨by with_unfolding_all decide, by decide,
    C5_roundtrip gen0 "s".toList "t".toList
      ["2 * (10.00, 1.00, 2.00, 0.50, 0.50, 0.50, 0.10, 0.90)".toList,
       "102 * (293.86, 17.06, 38.30, 0.81, 0.05, 0.83, 0.20, 0.90)".toList]
      (by with_unfolding_all decide) (by decide)⟩

/-- C6 (counterexample): `GET /history?limit=-1` on a two-record store.  The
source computes `slice(0, Math.min(-1, 2)) = slice(0, -1)`, which drops the
LAST record (negative slice end counts from the end); the claimed behavior
for `limit ≤ 0` is the default page `take (min 10 length)`, i.e. both
records.  The two answers have different lengths. -/
theorem C6_counterexample_negative_limit :
    (historyHandler (some (-1)) [recA, recB]).1 = [recA] ∧
    [recA, recB].take (min 10 [recA, recB].length) = [recA, recB] ∧
    (historyHandler (some (-1)) [recA, recB]).1.length ≠
      ([recA, recB].take (min 10 [recA, recB].length)).length :=
  ⟨rfl, rfl, by decide⟩

/-- C6 (amended): the history page is `take 10` when the limit is omitted
(`parseInt` gave `NaN`) or equal to `0` (both fall to the default through
`|| 10`), `take (min limit length)` for a positive limit, and — contrary to
the claim — `take (length + limit)` (clamped at 0) for a negative limit,
because `slice(0, negative)` counts from the end of the array.  `count` is
the page length and `total` the store size. -/
theorem C6_amended_history (limitQ : Option Int) (store : List SwarmRecord) :
    ((historyHandler limitQ store).1 =
      match limitQ with
      | none => store.take 10
      | some v =>
        if v = 0 then store.take 10
        else if 0 < v then store.take (min v.toNat store.length)
        else store.take ((store.length : Int) + v).toNat) ∧
    (historyHandler limitQ store).2.1 = (historyHandler limitQ store).1.length ∧
    (historyHandler limitQ store).2.2 = store.length := by
  refine ⟨?_, rfl, rfl⟩
  rcases limitQ with _ | v
  · show jsSliceTo (min 10 (store.length : Int)) store = store.take 10
    rw [jsSliceTo, if_neg (by omega), List.take_eq_take]
    omega
  · dsimp only [historyHandler]
    split_ifs with h0 hpos
    · subst h0
      show jsSliceTo (min 10 (store.length : Int)) store = store.take 10
      rw [jsSliceTo, if_neg (by omega), List.take_eq_take]
      omega
    · show jsSliceTo (min v (store.length : Int)) store = store.take (min v.toNat store.length)
      rw [jsSliceTo, if_neg (by omega), List.take_eq_take]
      omega
    · have hneg : v < 0 := by omega
      show jsSliceTo (min v (store.length : Int)) store =
        store.take ((store.length : Int) + v).toNat
      rw [jsSliceTo]
      have hmin : min v (store.length : Int) = v := by omega
      rw [hmin, if_pos hneg]

/-- C7: `averageParticles` is `0` on an empty store and otherwise the
rounded quotient `round(totalParticles / totalSubmissions)` of the other two
stats fields; the divisor `totalSubmissions` is nonzero whenever the
quotient is taken. -/
theorem C7_average_particles (store : List SwarmRecord) :
    ((statsHandler store).averageParticles =
      if store.length > 0 then
        jsRound (((statsHandler store).totalParticles : Rat) /
          ((statsHandler store).totalSubmissions : Rat))
      else 0) ∧
    (store = [] ∨ ((statsHandler store).totalSubmissions : Rat) ≠ 0) := by
  constructor
  · simp only [statsHandler]
    have hc : (((store.map (fun x => x.totalIndividuals)).sum : Int) : Rat) =
        (store.map (fun x => (x.totalIndividuals : Rat))).sum := by
      induction store with
      | nil => simp
      | cons a l ih => simp [ih]
    rw [hc]
  · rcases store with _ | ⟨r, rest⟩
    · exact Or.inl rfl
    · refine Or.inr ?_
      show (((r :: rest).length : Nat) : Rat) ≠ 0
      rw [List.length_cons]
      exact_mod_cast Nat.succ_ne_zero rest.length

/-- `postSwarmData` answers the 500 error exactly when the record it stores
has no `populations` array (text parses always have one; a structured body
is stored as-is). -/
theorem postSwarmData_fst_none {c : IngestCtx} {store : List SwarmRecord}
    (h : (ingestRecord c).populations = none) :
    (postSwarmData c store).1 = PostResp.err := by
  rcases hcb : c.body with t | j <;>
    · rw [ingestRecord, hcb] at h
      dsimp only [] at h
      rw [postSwarmData, hcb]
      dsimp only []
      rw [stampRecord_populations, h]

/-- `postSwarmData` answers the success JSON when the record it stores has a
`populations` array. -/
theorem postSwarmData_fst_some {c : IngestCtx} {store : List SwarmRecord}
    {ps : List Population} (h : (ingestRecord c).populations = some ps) :
    (postSwarmData c store).1.success = true := by
  rcases hcb : c.body with t | j <;>
    · rw [ingestRecord, hcb] at h
      dsimp only [] at h
      rw [postSwarmData, hcb]
      dsimp only []
      rw [stampRecord_populations, h]
      rfl

/-- The head of the store after a POST is the stamped ingested record. -/
theorem postSwarmData_head (c : IngestCtx) (store : List SwarmRecord) :
    (postSwarmData c store).2 =
      stampRecord c.stamp (ingestRecord c) :: store.take (MAX_STORED_DATA - 1) := by
  rw [postSwarmData_snd, insertCap_eq_take]
  rfl

/-- C8: a text payload in which no line matches the grammar is accepted:
the POST succeeds and stores (at the front) a record with an empty
population list and `totalIndividuals = 0`. -/
theorem C8_unmatched_text_accepted (c : IngestCtx) (t : List Char)
    (store : List SwarmRecord) (hb : c.body = ReqBody.text t)
    (hnm : ∀ l ∈ linesOf t, parseLine l = none) :
    (postSwarmData c store).1.success = true ∧
    ∃ r, (postSwarmData c store).2.head? = some r ∧
      r.populations = some [] ∧ r.totalIndividuals = 0 := by
  have hpl : parseLoop c.gen 0 (linesOf t) = ([], 0) :=
    parseLoop_none c.gen (linesOf t) 0 hnm
  have hrec : ingestRecord c = parseStandardFormat c.gen c.sid c.ts t := by
    rw [ingestRecord, hb]
  have hpops : (ingestRecord c).populations = some [] := by
    rw [hrec, parseStandardFormat_populations, hpl]
  refine ⟨postSwarmData_fst_some hpops, stampRecord c.stamp (ingestRecord c), ?_, ?_, ?_⟩
  · rw [postSwarmData_head]
    rfl
  · rw [stampRecord_populations]
    exact hpops
  · rw [stampRecord_total, hrec, parseStandardFormat_total, hpl]
    rfl

/-- C8 (witness): the claim theorem applied to a concrete two-line garbage
payload over the empty store. -/
theorem C8_unmatched_text_accepted_witness :
    (ctxGarbage.body = ReqBody.text "hello\nworld".toList) ∧
    (∀ l ∈ linesOf "hello\nworld".toList, parseLine l = none) ∧
    ((postSwarmData ctxGarbage []).1.success = true ∧
     ∃ r, (postSwarmData ctxGarbage []).2.head? = some r ∧
       r.populations = some [] ∧ r.totalIndividuals = 0) :=
  ⟨rfl, by decide,
    C8_unmatched_text_accepted ctxGarbage "hello\nworld".toList [] rfl (by decide)⟩

/-- C9 (counterexample): POSTing a structured payload with no `populations`
field to an empty store leaves the store NON-empty (the C1 mutate-then-throw
bug), and `latest` on that store is a 500 server error — neither the
claimed "no data" result nor a success projection. -/
theorem C9_counterexample_malformed_front :
    (postSwarmData ctxNoPops []).2 ≠ [] ∧
    latestHandler (postSwarmData ctxNoPops []).2 = LatestResp.serverError :=
  ⟨by decide, rfl⟩

/-- C9 (amended): `latest` on an empty store is the "no data" answer; after
a successful POST it returns the success projection of the freshly stored
front record; but after a FAILED POST (which still stores its record, claim
C1) the front record has no `populations` and `latest` is a 500 server
error, so the non-empty-store half of the claim does not hold as stated. -/
theorem C9_amended_latest (c : IngestCtx) (store : List SwarmRecord) :
    latestHandler [] = LatestResp.noData ∧
    (∀ ps, (ingestRecord c).populations = some ps →
      (postSwarmData c store).1.success = true ∧
      latestHandler (postSwarmData c store).2 =
        LatestResp.ok
          { timestamp := some c.stamp.serverTimestamp,
            sessionId := (ingestRecord c).sessionId,
            totalParticles := (ingestRecord c).totalIndividuals,
            populations := ps.map unityPop }) ∧
    ((ingestRecord c).populations = none →
      (postSwarmData c store).1 = PostResp.err ∧
      latestHandler (postSwarmData c store).2 = LatestResp.serverError) := by
  refine ⟨rfl, ?_, ?_⟩
  · intro ps hps
    refine ⟨postSwarmData_fst_some hps, ?_⟩
    rw [postSwarmData_head, latestHandler]
    rw [show (stampRecord c.stamp (ingestRecord c)).populations = some ps from hps]
    rfl
  · intro hnone
    refine ⟨postSwarmData_fst_none hnone, ?_⟩
    rw [postSwarmData_head, latestHandler]
    rw [show (stampRecord c.stamp (ingestRecord c)).populations = none from hnone]

/-- C9 (witness): the amended theorem at a concrete successful POST — the
store after ingesting `goodJson` answers `latest` with the success
projection of that record. -/
theorem C9_amended_latest_witness :
    (ingestRecord ctxGood).populations = some
      [{ count := 3, parameters := mkParams params8 "blue".toList }] ∧
    ((postSwarmData ctxGood []).1.success = true ∧
     latestHandler (postSwarmData ctxGood []).2 =
       LatestResp.ok
         { timestamp := some ctxGood.stamp.serverTimestamp,
           sessionId := (ingestRecord ctxGood).sessionId,
           totalParticles := (ingestRecord ctxGood).totalIndividuals,
           populations :=
             [{ count := 3, parameters := mkParams params8 "blue".toList }].map
               unityPop }) :=
  ⟨rfl, (C9_amended_latest ctxGood []).2.1
    [{ count := 3, parameters := mkParams params8 "blue".toList }] rfl⟩

/-- C10: the text parser is total (a total Lean function) and
shape-preserving: on EVERY input it produces a record with a `populations`
array whose `totalIndividuals` is the sum of the counts, and every
population has a non-negative integer count, the eight named parameter
fields of `mkParams`, and a colour `hsl(h, s%, l%)` with `0 ≤ h < 360`,
`60 ≤ s ≤ 100`, `50 ≤ l ≤ 80` — provided the random stream yields values
in `[0, 1)` as `Math.random` does. -/
theorem C10_parser_shape (gen : Nat → Rat × Rat × Rat) (hg : validGen gen)
    (sid ts t : List Char) :
    ∃ ps, (parseStandardFormat gen sid ts t).populations = some ps ∧
      (parseStandardFormat gen sid ts t).totalIndividuals = sumCounts ps ∧
      ∀ p ∈ ps, 0 ≤ p.count ∧
        ∃ params h s l, p.parameters = mkParams params (hslString h s l) ∧
          (mkParams params (hslString h s l)).color = hslString h s l ∧
          0 ≤ h ∧ h < 360 ∧ 60 ≤ s ∧ s ≤ 100 ∧ 50 ≤ l ∧ l ≤ 80 := by
  refine ⟨(parseLoop gen 0 (linesOf t)).1, parseStandardFormat_populations gen sid ts t,
    parseStandardFormat_total gen sid ts t, ?_⟩
  intro p hp
  obtain ⟨c, params, idx, rfl⟩ := parseLoop_mem_shape gen (linesOf t) 0 p hp
  refine ⟨Int.natCast_nonneg c, ?_⟩
  obtain ⟨hi1, hi2, hi3, hi4, hi5, hi6⟩ := hg idx
  obtain ⟨h, s, l, hcol, hh0, hh1, hs0, hs1, hl0, hl1⟩ :=
    generateRandomColor_shape (gen idx).1 (gen idx).2.1 (gen idx).2.2
      ⟨hi1, hi2⟩ ⟨hi3, hi4⟩ ⟨hi5, hi6⟩
  exact ⟨params, h, s, l, by rw [generateRandomColor3, hcol], rfl,
    hh0, hh1, hs0, hs1, hl0, hl1⟩

/-- C10 (witness): the shape theorem at the all-zeroes random stream and a
garbage input text. -/
theorem C10_parser_shape_witness :
    validGen gen0 ∧
    (∃ ps, (parseStandardFormat gen0 "s".toList "t".toList
        "x 1*(?)".toList).populations = some ps ∧
      (parseStandardFormat gen0 "s".toList "t".toList
        "x 1*(?)".toList).totalIndividuals = sumCounts ps ∧
      ∀ p ∈ ps, 0 ≤ p.count ∧
        ∃ params h s l, p.parameters = mkParams params (hslString h s l) ∧
          (mkParams params (hslString h s l)).color = hslString h s l ∧
          0 ≤ h ∧ h < 360 ∧ 60 ≤ s ∧ s ≤ 100 ∧ 50 ≤ l ∧ l ≤ 80) := by
  have hg : validGen gen0 := by
    intro i
    refine ⟨le_rfl, by norm_num [gen0], le_rfl, by norm_num [gen0], le_rfl,
      by norm_num [gen0]⟩
  exact ⟨hg, C10_parser_shape gen0 hg "s".toList "t".toList "x 1*(?)".toList⟩

end Swarm
